import Mathlib

/-!
# Verification of the selfstack WAL core

A shallow embedding, in Lean 4, of the write-ahead-log core of the
`selfstack` repository: the record codec (`internal/scope/db/wal/record.go`),
the segment writer and its open-time tail repair
(`internal/scope/db/wal/writer.go`), the segment iterator and the manifest
backends (`internal/scope/db/wal/reader.go`, `manifest.go`), the recovery
manager (`recovery.go`), the compactor (`compactor.go`) and the store facade
(`internal/scope/db/db.go`, `walstore.go`).

Machine integers (`uint8/uint16/uint32/uint64`) are embedded as `Nat` with
explicit `% 2^w` reductions exactly where the Go code performs a narrowing
conversion or where overflow can occur (`atomic.AddUint64`).  Byte slices are
`List Nat`; a well-formed buffer carries the hypothesis that its entries are
`< 256`.  Fallible functions return `Except WalError _` where the Go function
returns `(T, error)`; each `fmt.Errorf` site in the translated code is mapped
to one constructor of `WalError`.  File-system state is an association list
from segment names to byte lists and is threaded explicitly through every
operation that the Go code performs through `os`.
-/

deriving instance DecidableEq for Except

namespace Selfstack

/-- One 64-bit word: bound used for `uint64` arithmetic. -/
def U64 : Nat := 2 ^ 64

/-- `leBytes k v` is the little-endian encoding of `v` on `k` bytes, the
translation of `binary.LittleEndian.PutUintXX` (which truncates to the low
`k` bytes, byte `i` being `byte(v >> 8i)`). -/
def leBytes : Nat → Nat → List Nat
  | 0, _ => []
  | k + 1, v => v % 256 :: leBytes k (v / 256)

/-- `readLE k l` reads a `k`-byte little-endian value from the front of `l`,
the translation of `binary.LittleEndian.UintXX` (missing bytes read as 0;
all call sites are guarded by length checks as in the Go code). -/
def readLE : Nat → List Nat → Nat
  | 0, _ => 0
  | _ + 1, [] => 0
  | k + 1, b :: rest => b + 256 * readLE k rest

/-- `byteAt l i` is `l[i]`, the translation of a Go byte-slice index
(call sites are guarded by length checks as in the Go code). -/
def byteAt (l : List Nat) (i : Nat) : Nat :=
  l.getD i 0

/-- The CRC-32 (IEEE, reflected) polynomial, as in Go `hash/crc32.IEEE`'s
table generator. -/
def crcPoly : Nat := 0xEDB88320

/-- One bit step of the reflected CRC-32 register update:
`x >> 1`, xor the polynomial when the low bit is set.  This is the per-bit
form of the table built by `hash/crc32.simpleMakeTable`. -/
def crcBit (x : Nat) : Nat :=
  (x >>> 1) ^^^ (crcPoly * (x % 2))

/-- One byte step of CRC-32: xor the byte into the register, then run the
bit step eight times.  Equivalent to Go's
`crc = tab[byte(crc)^b] ^ (crc >> 8)`. -/
def crcByte (x b : Nat) : Nat :=
  crcBit^[8] (x ^^^ b)

/-- `crc32 data` is Go's `crc32.ChecksumIEEE(data)`: pre- and post-condition
the register with `0xFFFFFFFF` around the byte steps. -/
def crc32 (data : List Nat) : Nat :=
  (data.foldl crcByte 0xFFFFFFFF) ^^^ 0xFFFFFFFF

/-! ## Record codec (`record.go`) -/

/-- Magic bytes `"WALR"` for WAL record identification. -/
def MagicBytes : Nat := 0x57414C52

/-- `HeaderSize` is the fixed size of the record header. -/
def HeaderSize : Nat := 24

/-- `MaxPayloadSize` limits individual record size (10 MiB). -/
def MaxPayloadSize : Nat := 10 * 1024 * 1024

/-- `MaxDocIDLen` limits document ID length (`uint16` max). -/
def MaxDocIDLen : Nat := 65535

/-- Record type constants. -/
def RecordTypeInsert : Nat := 0x01

/-- `UPDATE` record type. -/
def RecordTypeUpdate : Nat := 0x02

/-- `DELETE` (tombstone) record type. -/
def RecordTypeDelete : Nat := 0x03

/-- `CHECKPOINT` record type. -/
def RecordTypeCheckpoint : Nat := 0x04

/-- Errors of the WAL core.  The Go code returns `fmt.Errorf` strings; each
constructor names one error site of the translated functions. -/
inductive WalError where
  /-- `NewRecord` / `EncodeDocPayload`: payload or doc id over the bound. -/
  | payloadTooLarge
  /-- `DecodeRecord`: "data too short for header". -/
  | dataTooShortHeader
  /-- `DecodeRecord`: "invalid magic". -/
  | badMagic
  /-- `DecodeRecord`: "header CRC mismatch". -/
  | headerCrcMismatch
  /-- `DecodeRecord`: "data too short for payload" (truncated input). -/
  | dataTooShortPayload
  /-- `DecodeRecord`: "payload CRC mismatch". -/
  | payloadCrcMismatch
  /-- `DecodeDocPayload` / `DecodeDeletePayload`: payload too short or a
  read past the end of the payload. -/
  | badPayload
  /-- `EncodeDocPayload` / `EncodeDeletePayload`: doc id longer than
  `MaxDocIDLen`. -/
  | docIDTooLong
  /-- `WALWriter.Append` on a closed writer. -/
  | writerClosed
  /-- Manifest: segment not found (in-memory backend) or no row updated
  (Postgres backend: "not found or not active"). -/
  | segmentNotFound
  /-- Recovery: a sealed segment file is missing. -/
  | sealedSegmentMissing
  /-- Recovery / compactor: segment checksum mismatch against manifest. -/
  | segmentChecksumMismatch
  /-- Recovery / compactor: iterator terminated with a corruption error. -/
  | segmentReadError
  /-- Compactor: decoding a payload inside `mergeRecords` failed. -/
  | mergeDecodeError
  /-- `GetSegmentID`: "invalid segment filename". -/
  | badSegmentName
deriving DecidableEq, Repr

/-- A WAL record, mirroring `type Record struct` of `record.go`.
`magic`, `payloadLen`, `headerCRC`, `payloadCRC` are `uint32`; `type` and
`flags` are `uint8`; `reserved` is `uint16`; `lsn` is `uint64`;
`payload` is the byte slice. -/
structure Record where
  magic : Nat
  type : Nat
  flags : Nat
  reserved : Nat
  lsn : Nat
  payloadLen : Nat
  headerCRC : Nat
  payload : List Nat
  payloadCRC : Nat
deriving DecidableEq, Repr

/-- The 20 header bytes covered by the header CRC, exactly the buffer built
by `Record.calculateHeaderCRC` (and the first 20 bytes written by
`Record.Encode`): magic, type, flags, reserved, LSN, payload length, all
little-endian.  `byte(r.Type)` and `byte(r.Flags)` are the `% 256`
narrowing conversions. -/
def Record.headerBytes (r : Record) : List Nat :=
  leBytes 4 r.magic ++ [r.type % 256, r.flags % 256] ++ leBytes 2 r.reserved
    ++ leBytes 8 r.lsn ++ leBytes 4 r.payloadLen

/-- `calculateHeaderCRC` computes CRC32 of header bytes `[0:20]`. -/
def Record.calculateHeaderCRC (r : Record) : Nat :=
  crc32 r.headerBytes

/-- `NewRecord` creates a new WAL record with the given type and payload,
rejecting payloads over `MaxPayloadSize`.  `PayloadLen` is
`uint32(len(payload))`; under the guard the narrowing conversion is exact. -/
def NewRecord (recType : Nat) (lsn : Nat) (payload : List Nat) :
    Except WalError Record :=
  if payload.length > MaxPayloadSize then .error .payloadTooLarge
  else
    let rec0 : Record :=
      { magic := MagicBytes, type := recType, flags := 0, reserved := 0,
        lsn := lsn, payloadLen := payload.length, headerCRC := 0,
        payload := payload, payloadCRC := 0 }
    .ok { rec0 with
            headerCRC := rec0.calculateHeaderCRC,
            payloadCRC := crc32 payload }

/-- `Encode` serializes the record to bytes: 24-byte header (the 20 CRC-covered
bytes followed by the header CRC), then the payload, then the payload CRC. -/
def Record.Encode (r : Record) : List Nat :=
  r.headerBytes ++ leBytes 4 r.headerCRC ++ r.payload ++ leBytes 4 r.payloadCRC

/-- `TotalSize` returns the total size of the encoded record. -/
def Record.TotalSize (r : Record) : Nat :=
  HeaderSize + r.payloadLen + 4

/-- The record header as `DecodeRecord` parses it from the first 24 bytes
(payload fields still empty). -/
def decodeHeader (data : List Nat) : Record :=
  { magic := readLE 4 data, type := byteAt data 4, flags := byteAt data 5,
    reserved := readLE 2 (data.drop 6), lsn := readLE 8 (data.drop 8),
    payloadLen := readLE 4 (data.drop 16),
    headerCRC := readLE 4 (data.drop 20), payload := [], payloadCRC := 0 }

/-- `DecodeRecord` deserializes a record from bytes, following `record.go`
check for check: length `≥ 24`, magic, header CRC (recomputed from the parsed
fields), total length, payload CRC.  Note: it contains no
`payload_len > MaxPayloadSize` check. -/
def DecodeRecord (data : List Nat) : Except WalError Record :=
  if data.length < HeaderSize then .error .dataTooShortHeader
  else
    let rec0 : Record := decodeHeader data
    if rec0.magic ≠ MagicBytes then .error .badMagic
    else if rec0.headerCRC ≠ rec0.calculateHeaderCRC then
      .error .headerCrcMismatch
    else if data.length < HeaderSize + rec0.payloadLen + 4 then
      .error .dataTooShortPayload
    else
      let payload := (data.drop HeaderSize).take rec0.payloadLen
      let payloadCRC := readLE 4 (data.drop (HeaderSize + rec0.payloadLen))
      if payloadCRC ≠ crc32 payload then .error .payloadCrcMismatch
      else .ok { rec0 with payload := payload, payloadCRC := payloadCRC }

/-! ## Document / delete / checkpoint payload codecs (`record.go`)

The metadata JSON produced by `json.Marshal` is kept as an opaque byte list:
`EncodeDocPayload` takes the already-marshalled bytes and `DecodeDocPayload`
returns the raw bytes of the JSON slot (`json.Unmarshal` into the fixed
`DocMetadata` field set is not modelled; it does not affect which document id
a record addresses).  The embedding is the raw 512 little-endian bytes of the
128 `float32` values.  The `bytes.Reader` semantics of the Go decoders are
reproduced: a `Read` into a buffer only fails when the reader is already
exhausted, a short read silently leaves the zero-initialised tail of the
buffer in place, and `io.ReadFull` (used via `binary.Read`) fails whenever
fewer bytes remain than requested. -/

/-- `EncodeDocPayload` serializes a document payload for INSERT/UPDATE:
doc-id length (2B) + doc id, metadata length (4B) + metadata JSON bytes,
embedding bytes. -/
def EncodeDocPayload (docID meta emb : List Nat) : Except WalError (List Nat) :=
  if docID.length > MaxDocIDLen then .error .docIDTooLong
  else .ok (leBytes 2 docID.length ++ docID ++ leBytes 4 meta.length ++ meta ++ emb)

/-- `DecodeDocPayload` deserializes an INSERT/UPDATE payload into
(doc id bytes, metadata JSON bytes, embedding bytes). -/
def DecodeDocPayload (data : List Nat) :
    Except WalError (List Nat × List Nat × List Nat) :=
  if data.length < 6 then .error .badPayload
  else
    let docIDLen := readLE 2 data
    -- buf.Read(docIDBytes): the reader is at offset 2 < len, never exhausted
    let docID := List.takeD docIDLen (data.drop 2) 0
    let pos1 := 2 + min docIDLen (data.length - 2)
    if data.length - pos1 < 4 then .error .badPayload
    else
      let metaLen := readLE 4 (data.drop pos1)
      let pos2 := pos1 + 4
      if pos2 ≥ data.length then .error .badPayload
      else
        let metaJSON := List.takeD metaLen (data.drop pos2) 0
        let pos3 := pos2 + min metaLen (data.length - pos2)
        if data.length - pos3 < 512 then .error .badPayload
        else .ok (docID, metaJSON, (data.drop pos3).take 512)

/-- `EncodeDeletePayload` serializes a delete payload (just the doc id). -/
def EncodeDeletePayload (docID : List Nat) : Except WalError (List Nat) :=
  if docID.length > MaxDocIDLen then .error .docIDTooLong
  else .ok (leBytes 2 docID.length ++ docID)

/-- `DecodeDeletePayload` deserializes a delete payload.  As in the Go code,
the `buf.Read(docIDBytes)` call fails exactly when the reader is already
exhausted, i.e. when nothing follows the two length bytes. -/
def DecodeDeletePayload (data : List Nat) : Except WalError (List Nat) :=
  if data.length < 2 then .error .badPayload
  else if data.length ≤ 2 then .error .badPayload
  else .ok (List.takeD (readLE 2 data) (data.drop 2) 0)

/-- `EncodeCheckpointPayload` serializes a checkpoint payload. -/
def EncodeCheckpointPayload (checkpointLSN : Nat) : List Nat :=
  leBytes 8 checkpointLSN

/-- `DecodeCheckpointPayload` deserializes a checkpoint payload. -/
def DecodeCheckpointPayload (data : List Nat) : Except WalError Nat :=
  if data.length < 8 then .error .badPayload
  else .ok (readLE 8 data)

/-! ## Recovery apply rule (`recovery.go`) -/

/-- A document recovered from the WAL (`RecoveredDoc`): the doc id, the raw
metadata JSON bytes and the raw embedding bytes. -/
structure RecoveredDoc where
  docID : List Nat
  meta : List Nat
  emb : List Nat
deriving DecidableEq, Repr

/-- State of the recovery replay: the in-memory document index
(`DocumentIndex.SetRecovered` / `Delete`) and the per-doc last-seen-LSN map
`docLSN`. -/
structure RecState where
  index : List Nat → Option RecoveredDoc
  docLSN : List Nat → Option Nat

/-- Pointwise update of a functional map. -/
def updFun {α β : Type} [DecidableEq α] (f : α → Option β) (k : α)
    (v : Option β) : α → Option β :=
  fun x => if x = k then v else f x

/-- The empty recovery state: empty index, empty `docLSN` map. -/
def initialRecState : RecState :=
  { index := fun _ => none, docLSN := fun _ => none }

/-- `applyRecord` applies one record to the in-memory index under the
per-doc last-seen-LSN rule of `RecoveryManager.applyRecord`.  The returned
flag is `true` when the Go function returns an error (payload decode
failure); the state is unchanged in that case.  CHECKPOINT and unknown
record types are skipped. -/
def applyRecord (rec : Record) (st : RecState) : RecState × Bool :=
  if rec.type = RecordTypeInsert ∨ rec.type = RecordTypeUpdate then
    match DecodeDocPayload rec.payload with
    | .error _ => (st, true)
    | .ok (docID, meta, emb) =>
      match st.docLSN docID with
      | some existingLSN =>
        if existingLSN ≥ rec.lsn then (st, false)
        else
          ({ index := updFun st.index docID (some ⟨docID, meta, emb⟩),
             docLSN := updFun st.docLSN docID (some rec.lsn) }, false)
      | none =>
          ({ index := updFun st.index docID (some ⟨docID, meta, emb⟩),
             docLSN := updFun st.docLSN docID (some rec.lsn) }, false)
  else if rec.type = RecordTypeDelete then
    match DecodeDeletePayload rec.payload with
    | .error _ => (st, true)
    | .ok docID =>
      match st.docLSN docID with
      | some existingLSN =>
        if existingLSN ≥ rec.lsn then (st, false)
        else
          ({ index := updFun st.index docID none,
             docLSN := updFun st.docLSN docID (some rec.lsn) }, false)
      | none =>
          ({ index := updFun st.index docID none,
             docLSN := updFun st.docLSN docID (some rec.lsn) }, false)
  else (st, false)

/-- `replay` folds `applyRecord` over a record sequence; an error on an
individual record leaves the state unchanged and replay continues, as in
both recovery entry points. -/
def replay (recs : List Record) (st : RecState) : RecState :=
  recs.foldl (fun s r => (applyRecord r s).1) st

/-- The document id a record addresses: the doc id its payload decodes to,
for INSERT/UPDATE/DELETE records with decodable payloads. -/
def recDocID (rec : Record) : Option (List Nat) :=
  if rec.type = RecordTypeInsert ∨ rec.type = RecordTypeUpdate then
    match DecodeDocPayload rec.payload with
    | .ok (docID, _, _) => some docID
    | .error _ => none
  else if rec.type = RecordTypeDelete then
    match DecodeDeletePayload rec.payload with
    | .ok docID => some docID
    | .error _ => none
  else none

/-- The effect of a record on the index entry of its own doc id:
`none` for a tombstone, the recovered document for INSERT/UPDATE. -/
def docOutcome (rec : Record) : Option RecoveredDoc :=
  if rec.type = RecordTypeDelete then none
  else
    match DecodeDocPayload rec.payload with
    | .ok (docID, meta, emb) => some ⟨docID, meta, emb⟩
    | .error _ => none

/-! ## Compactor merge (`compactor.go`) -/

/-- Association-list lookup, the model of a Go map read. -/
def alGet {α β : Type} [DecidableEq α] : List (α × β) → α → Option β
  | [], _ => none
  | (k', v) :: rest, k => if k = k' then some v else alGet rest k

/-- Association-list insert/replace, the model of a Go map write. -/
def alSet {α β : Type} [DecidableEq α] : List (α × β) → α → β → List (α × β)
  | [], k, v => [(k, v)]
  | (k', v') :: rest, k, v =>
    if k = k' then (k, v) :: rest else (k', v') :: alSet rest k v

/-- Association-list removal, the model of Go `delete(m, k)`. -/
def alErase {α β : Type} [DecidableEq α] : List (α × β) → α → List (α × β)
  | [], _ => []
  | (k', v') :: rest, k =>
    if k = k' then alErase rest k else (k', v') :: alErase rest k

/-- The three maps maintained by `Compactor.mergeRecords`:
`records` (doc id → latest INSERT/UPDATE record), `tombstones`
(doc id → latest DELETE record) and `recordLSN` (doc id → LSN of the latest
record). -/
structure MergeState where
  records : List (List Nat × Record)
  tombstones : List (List Nat × Record)
  recordLSN : List (List Nat × Nat)

/-- The empty merge state. -/
def initialMergeState : MergeState :=
  { records := [], tombstones := [], recordLSN := [] }

/-- One record step of `Compactor.mergeRecords`: decode the doc id
(aborting the merge on a decode failure), keep the record only when its LSN
is strictly above the highest LSN seen for the doc, and route it into
`tombstones` (evicting any live record) or `records` (evicting any
tombstone). -/
def mergeStep (st : MergeState) (rec : Record) : Except WalError MergeState :=
  if rec.type = RecordTypeInsert ∨ rec.type = RecordTypeUpdate then
    match DecodeDocPayload rec.payload with
    | .error _ => .error .mergeDecodeError
    | .ok (docID, _, _) =>
      let keep := match alGet st.recordLSN docID with
        | none => true
        | some existingLSN => rec.lsn > existingLSN
      if keep then
        .ok { records := alSet st.records docID rec,
              tombstones := alErase st.tombstones docID,
              recordLSN := alSet st.recordLSN docID rec.lsn }
      else .ok st
  else if rec.type = RecordTypeDelete then
    match DecodeDeletePayload rec.payload with
    | .error _ => .error .mergeDecodeError
    | .ok docID =>
      let keep := match alGet st.recordLSN docID with
        | none => true
        | some existingLSN => rec.lsn > existingLSN
      if keep then
        .ok { records := alErase st.records docID,
              tombstones := alSet st.tombstones docID rec,
              recordLSN := alSet st.recordLSN docID rec.lsn }
      else .ok st
  else .ok st

/-- `mergeRecords` over the per-segment record sequences, in segment order.
The input is the list of record sequences the segment iterator yields for
each input segment; the per-segment checksum verification and iterator error
paths (which can only abort the whole merge, never change its outcome) are
the byte-level concern of the iterator model below. -/
def mergeRecords (segs : List (List Record)) : Except WalError MergeState :=
  segs.foldl
    (fun acc seg =>
      acc.bind fun st => seg.foldl (fun a r => a.bind fun s => mergeStep s r) (.ok st))
    (.ok initialMergeState)

/-- The record list written by `compactSegments` after a successful merge:
live records and tombstones merged into one map (`allRecords`, tombstones
written last) and sorted by LSN ascending. -/
def compactOutput (segs : List (List Record)) : Except WalError (List Record) :=
  (mergeRecords segs).map fun st =>
    let allRecords := st.tombstones.foldl (fun m kv => alSet m kv.1 kv.2) st.records
    (allRecords.map (·.2)).mergeSort (fun a b => a.lsn ≤ b.lsn)

/-! ## Open-time tail repair (`writer.go`) -/

/-- One step of `WALWriter.findLastValidOffset`: `some k` when a fully valid
record of encoded length `k` sits at the front of `l` (24 readable header
bytes, magic, payload length within bound, header CRC, payload and payload
CRC readable, payload CRC valid); `none` when the scan must stop here. -/
def parseValidRecord (l : List Nat) : Option Nat :=
  if l.length < HeaderSize then none
  else if readLE 4 l ≠ MagicBytes then none
  else if readLE 4 (l.drop 16) > MaxPayloadSize then none
  else if readLE 4 (l.drop 20) ≠ crc32 (l.take 20) then none
  else
    let payloadLen := readLE 4 (l.drop 16)
    if l.length < HeaderSize + payloadLen + 4 then none
    else if readLE 4 (l.drop (HeaderSize + payloadLen)) ≠
        crc32 ((l.drop HeaderSize).take payloadLen) then none
    else some (HeaderSize + payloadLen + 4)

/-- Fuel-indexed scan loop of `findLastValidOffset`.  Each accepted record
consumes at least 28 bytes, so `l.length` steps of fuel always suffice; the
fuel only bounds the recursion of the shallow embedding. -/
def scanFrom : Nat → List Nat → Nat
  | 0, _ => 0
  | fuel + 1, l =>
    match parseValidRecord l with
    | none => 0
    | some k => k + scanFrom fuel (l.drop k)

/-- `findLastValidOffset` scans a segment's bytes from offset 0 and returns
the byte offset after the last fully valid record. -/
def findLastValidOffset (l : List Nat) : Nat :=
  scanFrom l.length l

/-- The file-content effect of `WALWriter.openSegment` on an existing
segment file: when the file is non-empty and the last valid offset is less
than the file size, the tail is truncated to that offset; opening for append
leaves the bytes otherwise unchanged. -/
def openSegmentContents (file : List Nat) : List Nat :=
  if file.length > 0 ∧ findLastValidOffset file < file.length then
    file.take (findLastValidOffset file)
  else file

/-- A record all of whose encoded fields are in range and whose CRCs are
correct, as `NewRecord` produces them: a record whose encoding the segment
scanner accepts as fully valid. -/
def wfRecord (r : Record) : Prop :=
  r.magic = MagicBytes ∧ r.type < 256 ∧ r.flags < 256 ∧
  r.reserved < 2 ^ 16 ∧ r.lsn < 2 ^ 64 ∧ r.payloadLen = r.payload.length ∧
  r.payloadLen ≤ MaxPayloadSize ∧ r.headerCRC = r.calculateHeaderCRC ∧
  r.payloadCRC = crc32 r.payload ∧ ∀ b ∈ r.payload, b < 256

instance (r : Record) : Decidable (wfRecord r) := by
  rw [wfRecord]
  infer_instance

/-- The byte contents of a segment file holding the given record sequence. -/
def encodeAll (rs : List Record) : List Nat :=
  (rs.map Record.Encode).flatten

/-- CHECKPOINT record scaffold for the tail-repair instances. -/
def c3base : Record :=
  { magic := MagicBytes, type := RecordTypeCheckpoint, flags := 0,
    reserved := 0, lsn := 7, payloadLen := 0, headerCRC := 0, payload := [],
    payloadCRC := 0 }

/-- A fully valid CHECKPOINT record (correct CRCs, empty payload). -/
def c3rec : Record :=
  { c3base with headerCRC := c3base.calculateHeaderCRC, payloadCRC := crc32 [] }

/-! ## WAL writer (`writer.go`)

The writer model covers the state touched by the append path under the
writer mutex: the LSN allocator (`uint64`, bumped with wrap-around semantics
by `atomic.AddUint64`), the current segment file bytes and offset, the
pending-write counter, the sync policy and size-based rotation.  I/O errors
and the optional manifest are not sources of behaviour here (the writer is
modelled without a manifest, as when `WithManifest` is not supplied); the
background sync task only ever calls `syncLocked`, which does not change
file contents or the allocator. -/

/-- `SyncPolicy` controls when to fsync writes to disk. -/
structure SyncPolicy where
  immediate : Bool
  interval : Nat
  batchSize : Nat
deriving DecidableEq, Repr

/-- The WAL writer state. -/
structure WALWriter where
  lsn : Nat
  offset : Nat
  pendingWrites : Nat
  segmentID : Nat
  maxSize : Nat
  syncPolicy : SyncPolicy
  closed : Bool
  cur : List Nat
  sealedFiles : List (Nat × List Nat)
deriving DecidableEq, Repr

/-- `syncLocked`: fsync the file when pending writes exist; file contents
and the allocator are unchanged. -/
def WALWriter.syncLocked (w : WALWriter) : WALWriter :=
  if w.pendingWrites = 0 then w else { w with pendingWrites := 0 }

/-- `rotateLocked`: sync, close and seal the current segment, bump the
segment ID and open a fresh (empty) segment file. -/
def WALWriter.rotateLocked (w : WALWriter) : WALWriter :=
  let w := w.syncLocked
  { w with sealedFiles := w.sealedFiles ++ [(w.segmentID, w.cur)],
           segmentID := w.segmentID + 1, cur := [], offset := 0 }

/-- `Append` writes a record and returns the assigned LSN.  The LSN is
allocated before the record is built (`atomic.AddUint64(&w.lsn, 1) - 1`,
which wraps at `2^64`), so a failing `NewRecord` still consumes the LSN.
Sync is immediate or batch-triggered; the segment rotates when the
post-write offset reaches `maxSize`. -/
def WALWriter.Append (w : WALWriter) (recType : Nat) (payload : List Nat) :
    WALWriter × Except WalError Nat :=
  if w.closed then (w, .error .writerClosed)
  else
    let lsn := w.lsn
    let w := { w with lsn := (w.lsn + 1) % U64 }
    match NewRecord recType lsn payload with
    | .error e => (w, .error e)
    | .ok rec =>
      let data := rec.Encode
      let w := { w with cur := w.cur ++ data, offset := w.offset + data.length,
                        pendingWrites := w.pendingWrites + 1 }
      let w :=
        if w.syncPolicy.immediate then w.syncLocked
        else if w.syncPolicy.batchSize > 0 ∧
            w.pendingWrites ≥ w.syncPolicy.batchSize then w.syncLocked
        else w
      let w := if w.offset ≥ w.maxSize then w.rotateLocked else w
      (w, .ok lsn)

/-- `AppendWithSync` writes a record and syncs immediately, returning the
assigned LSN. -/
def WALWriter.AppendWithSync (w : WALWriter) (recType : Nat)
    (payload : List Nat) : WALWriter × Except WalError Nat :=
  if w.closed then (w, .error .writerClosed)
  else
    let lsn := w.lsn
    let w := { w with lsn := (w.lsn + 1) % U64 }
    match NewRecord recType lsn payload with
    | .error e => (w, .error e)
    | .ok rec =>
      let data := rec.Encode
      let w := { w with cur := w.cur ++ data, offset := w.offset + data.length,
                        pendingWrites := 0 }
      let w := if w.offset ≥ w.maxSize then w.rotateLocked else w
      (w, .ok lsn)

/-- One append call: `Append` or `AppendWithSync` with a record type and a
payload. -/
structure WriteOp where
  withSync : Bool
  recType : Nat
  payload : List Nat

/-- Dispatch one append call to `Append` or `AppendWithSync`. -/
def appendOp (w : WALWriter) (op : WriteOp) : WALWriter × Except WalError Nat :=
  if op.withSync then w.AppendWithSync op.recType op.payload
  else w.Append op.recType op.payload

/-- Run a sequence of append calls on a writer, collecting each call's
result.  The writer mutex serializes the calls; a sequence is the order the
lock granted them in. -/
def runAppends (w : WALWriter) : List WriteOp → List (Except WalError Nat)
  | [] => []
  | op :: rest => (appendOp w op).2 :: runAppends (appendOp w op).1 rest

/-- The LSNs of the successful appends of a call sequence, in call order. -/
def successLSNs (results : List (Except WalError Nat)) : List Nat :=
  results.filterMap fun r => match r with | .ok lsn => some lsn | .error _ => none

/-! ## Segment naming and listing (`roller.go` and the missing WAL-only
listing file)

Segment file names are `wal_%012d.seg` / `cmp_%012d.seg`; the twelve-digit
zero-padded decimal formatting is a bijection on segment IDs, so file names
are modelled by their parsed form. -/

/-- A directory entry name: a WAL segment file, a compacted segment file, or
any other file (which the listers ignore). -/
inductive SegName where
  | wal (id : Nat)
  | cmp (id : Nat)
  | other (tag : Nat)
deriving DecidableEq, Repr

/-- `SegmentFilename` generates a WAL segment filename for a given ID. -/
def SegmentFilename (segmentID : Nat) : SegName := .wal segmentID

/-- `CompactedSegmentFilename` generates a compacted segment filename;
compacted segments use the separate `cmp_` namespace. -/
def CompactedSegmentFilename (segmentID : Nat) : SegName := .cmp segmentID

/-- `GetSegmentID` extracts the segment ID from a segment filename,
accepting both the `wal_` and the `cmp_` format. -/
def GetSegmentID : SegName → Except WalError Nat
  | .wal id => .ok id
  | .cmp id => .ok id
  | .other _ => .error .badSegmentName

/-- Whether a directory entry is a segment file of either namespace. -/
def isSegmentFile : SegName → Bool
  | .wal _ => true
  | .cmp _ => true
  | .other _ => false

/-- The ID a name sorts under in `ListSegmentFiles` (`idI, _ :=
GetSegmentID(...)`: the error value 0 is used for unparsable names, which
are never in the filtered list). -/
def segSortID : SegName → Nat
  | .wal id => id
  | .cmp id => id
  | .other _ => 0

/-- `ListSegmentFiles` returns all segment files in a directory — both WAL
and compacted — sorted by segment ID. -/
def ListSegmentFiles (dir : List SegName) : List SegName :=
  (dir.filter isSegmentFile).mergeSort (fun a b => segSortID a ≤ segSortID b)

/-- `FindLatestSegment` finds the segment with the highest ID in a
directory, over both namespaces (the last entry of the sorted listing); the
Go function returns `("", 0, nil)` on an empty directory. -/
def FindLatestSegment (dir : List SegName) : Option SegName × Nat :=
  match (ListSegmentFiles dir).getLast? with
  | none => (none, 0)
  | some latest => (some latest, (GetSegmentID latest).toOption.getD 0)

/-- Modelled from the spec: `ListWALSegmentFiles` — the defining file is
absent from the source tree (only its tests and callers are present).  Per
§4.4, `list_wal_segments(dir)` returns only `wal_` files, sorted by numeric
ID ascending. -/
def ListWALSegmentFiles (dir : List SegName) : List SegName :=
  (dir.filter fun n => match n with | .wal _ => true | _ => false).mergeSort
    (fun a b => segSortID a ≤ segSortID b)

/-- Modelled from the spec: `FindLatestWALSegment` — the defining file is
absent from the source tree.  Per §4.4, it returns the highest WAL ID,
ignoring CMP IDs; the Go signature returns `("", 0, nil)` for an empty
listing. -/
def FindLatestWALSegment (dir : List SegName) : Option SegName × Nat :=
  match (ListWALSegmentFiles dir).getLast? with
  | none => (none, 0)
  | some latest => (some latest, segSortID latest)

/-- The initial segment ID computed by `NewWALStore` (`db.go`): start from
the manifest WAL state's `CurrentSegmentID` (1 without a database), then
take the latest WAL segment ID found on the file system when it is at least
as large.  CMP IDs never enter this maximization. -/
def computeInitialSegmentID (manifestSegID : Option Nat)
    (dir : List SegName) : Nat :=
  let initialSegmentID := match manifestSegID with
    | some currentSegmentID => currentSegmentID
    | none => 1
  let latestSegID := (FindLatestWALSegment dir).2
  if latestSegID ≥ initialSegmentID then latestSegID else initialSegmentID

/-! ## Manifest stores (`manifest.go`)

Timestamps (`NOW()` / `time.Now()`) are an opaque `Nat` parameter; the hex
`%08x` rendering of a segment checksum is a bijection on `uint32`, so
checksums are modelled by their CRC-32 value. -/

/-- Lifecycle status of a segment. -/
inductive SegmentStatus where
  | active
  | sealed
  | compacting
  | archived
deriving DecidableEq, Repr

/-- Segment type: live WAL segment or compacted segment. -/
inductive SegType where
  | wal
  | cmp
deriving DecidableEq, Repr

/-- Catalog metadata about a segment (`SegmentInfo`). -/
structure SegmentInfo where
  segmentID : Nat
  segmentType : SegType
  filename : SegName
  sizeBytes : Nat
  recordCount : Nat
  minLSN : Option Nat
  maxLSN : Option Nat
  status : SegmentStatus
  createdAt : Nat
  sealedAt : Option Nat
  checksum : Option Nat
deriving DecidableEq, Repr

/-- The global WAL state singleton. -/
structure WALState where
  currentSegmentID : Nat
  nextLSN : Nat
  checkpointLSN : Nat
deriving DecidableEq, Repr

/-- Information needed for manifest-assisted recovery. -/
structure RecoveryInfo where
  state : WALState
  segments : List SegmentInfo

/-- The in-memory manifest: a `(segment_type, segment_id)`-keyed map and a
single state record. -/
structure InMemoryManifest where
  segments : List ((SegType × Nat) × SegmentInfo)
  state : WALState
deriving DecidableEq, Repr

/-- `InMemoryManifest.CreateSegment` registers a new WAL segment as
`active` and moves `CurrentSegmentID` to it; it never fails. -/
def InMemoryManifest.CreateSegment (m : InMemoryManifest) (segmentID : Nat)
    (filename : SegName) (now : Nat) : InMemoryManifest :=
  { m with
      segments := alSet m.segments (SegType.wal, segmentID)
        { segmentID := segmentID, segmentType := .wal, filename := filename,
          sizeBytes := 0, recordCount := 0, minLSN := none, maxLSN := none,
          status := .active, createdAt := now, sealedAt := none,
          checksum := none },
      state := { m.state with currentSegmentID := segmentID } }

/-- `InMemoryManifest.SealSegment` marks a WAL segment as sealed with its
checksum.  Note: the only failure is a missing segment; the current status
of the segment is not inspected. -/
def InMemoryManifest.SealSegment (m : InMemoryManifest) (segmentID : Nat)
    (checksum : Nat) (now : Nat) : Except WalError InMemoryManifest :=
  match alGet m.segments (SegType.wal, segmentID) with
  | none => .error .segmentNotFound
  | some seg =>
    .ok { m with
            segments := alSet m.segments (SegType.wal, segmentID)
              { seg with status := .sealed, sealedAt := some now,
                         checksum := some checksum } }

/-- Whether a row is hit by the Postgres `SealSegment` update's `WHERE`
clause: `segment_id = $1 AND segment_type = 'wal' AND status = 'active'`. -/
def sealHits (segmentID : Nat) (s : SegmentInfo) : Bool :=
  s.segmentID = segmentID ∧ s.segmentType = SegType.wal ∧
    s.status = SegmentStatus.active

/-- `PostgresManifest.SealSegment` over the `wal_segments` table rows: the
`UPDATE ... WHERE segment_id = $1 AND segment_type = 'wal' AND status =
'active'` statement followed by the `RowsAffected() == 0` check ("segment
not found or not active"). -/
def PostgresManifest.SealSegment (rows : List SegmentInfo) (segmentID : Nat)
    (checksum : Nat) (now : Nat) : Except WalError (List SegmentInfo) :=
  let updated := rows.map fun s =>
    if sealHits segmentID s then
      { s with status := .sealed, sealedAt := some now,
               checksum := some checksum }
    else s
  if (rows.filter (sealHits segmentID)).length = 0 then
    .error .segmentNotFound
  else .ok updated

/-! ## Segment iterator (`reader.go`) and the recovery manager
(`recovery.go`)

The file system is an association list from segment names to byte lists and
is threaded explicitly: every primitive the two recovery entry points use
(`os.Stat`, `os.Open`+read via the iterator, checksum verification) is a
read.  The writer's `openSegment` (tail truncation) and the compactor's
file operations are the only modelled mutators of file contents. -/

/-- File system state: segment name to byte contents. -/
def FS : Type := List (SegName × List Nat)

/-- Read a file's bytes (`os.Open` / `os.ReadFile`); `none` when absent. -/
def fsRead (fs : FS) (p : SegName) : Option (List Nat) :=
  alGet fs p

/-- Fuel-indexed loop of `SegmentIterator.Next`: parse records from the
front of `l`, stopping cleanly at end of file and with an error flag on the
first corrupt record (short header, bad magic, header CRC mismatch, payload
over bound, short payload/CRC read, payload CRC mismatch).  Records with
`lsn < fromLSN` are validated but dropped when `fromLSN > 0`.  Each record
consumes at least 28 bytes, so `l.length` fuel always suffices. -/
def iterAux : Nat → Nat → List Nat → List Record × Bool
  | 0, _, _ => ([], false)
  | fuel + 1, fromLSN, l =>
    if l.isEmpty then ([], false)
    else if l.length < HeaderSize then ([], true)
    else if readLE 4 l ≠ MagicBytes then ([], true)
    else if readLE 4 (l.drop 20) ≠ crc32 (l.take 20) then ([], true)
    else if readLE 4 (l.drop 16) > MaxPayloadSize then ([], true)
    else
      let payloadLen := readLE 4 (l.drop 16)
      if l.length < HeaderSize + payloadLen + 4 then ([], true)
      else
        let payload := (l.drop HeaderSize).take payloadLen
        if readLE 4 (l.drop (HeaderSize + payloadLen)) ≠ crc32 payload then
          ([], true)
        else
          let rec1 : Record :=
            { magic := readLE 4 l, type := byteAt l 4, flags := byteAt l 5,
              reserved := readLE 2 (l.drop 6), lsn := readLE 8 (l.drop 8),
              payloadLen := payloadLen,
              headerCRC := readLE 4 (l.drop 20), payload := payload,
              payloadCRC := readLE 4 (l.drop (HeaderSize + payloadLen)) }
          let res := iterAux fuel fromLSN (l.drop (HeaderSize + payloadLen + 4))
          if fromLSN > 0 ∧ rec1.lsn < fromLSN then res
          else (rec1 :: res.1, res.2)

/-- All records a `SegmentIterator` starting at `fromLSN` yields from a
segment's bytes, with the terminal error flag (`iter.Err() != nil`). -/
def iterRecords (l : List Nat) (fromLSN : Nat) : List Record × Bool :=
  iterAux l.length fromLSN l

/-- `CalculateSegmentChecksum`: the IEEE CRC-32 over the entire file. -/
def CalculateSegmentChecksum (l : List Nat) : Nat :=
  crc32 l

/-- Statistics from the recovery process. -/
structure RecoveryStats where
  segmentsLoaded : Nat
  recordsLoaded : Nat
  walRecordsReplayed : Nat
  tombstonesApplied : Nat
  corruptRecords : Nat
  maxLSN : Nat
deriving DecidableEq, Repr

/-- All-zero recovery statistics. -/
def initialStats : RecoveryStats :=
  { segmentsLoaded := 0, recordsLoaded := 0, walRecordsReplayed := 0,
    tombstonesApplied := 0, corruptRecords := 0, maxLSN := 0 }

/-- The shared per-record bookkeeping of both recovery loops: count the
record, track the max LSN, apply it (a failing `applyRecord` increments the
corruption counter and replay continues), and count applied tombstones. -/
def recoverApplyStep (p : RecState × RecoveryStats) (r : Record) :
    RecState × RecoveryStats :=
  let stats := { p.2 with recordsLoaded := p.2.recordsLoaded + 1,
                          maxLSN := max p.2.maxLSN r.lsn }
  let (st, isErr) := applyRecord r p.1
  if isErr then (st, { stats with corruptRecords := stats.corruptRecords + 1 })
  else if r.type = RecordTypeDelete then
    (st, { stats with tombstonesApplied := stats.tombstonesApplied + 1 })
  else (st, stats)

/-- The per-segment body of `RecoverWithoutManifest`'s loop: a segment that
fails to open is skipped, an iterator error at the tail counts one corrupt
record and the segment as not cleanly loaded, but recovery continues. -/
def rwmStep (acc : FS × RecState × RecoveryStats) (segPath : SegName) :
    FS × RecState × RecoveryStats :=
  match fsRead acc.1 segPath with
  | none => acc
  | some bytes =>
    let (recs, iterErr) := iterRecords bytes 0
    let (st, stats) := recs.foldl recoverApplyStep (acc.2.1, acc.2.2)
    let stats :=
      if iterErr then
        { stats with corruptRecords := stats.corruptRecords + 1 }
      else { stats with segmentsLoaded := stats.segmentsLoaded + 1 }
    (acc.1, st, stats)

/-- `RecoverWithoutManifest`: list all WAL and CMP segment files in ID
order and replay each fully with `rwmStep`. -/
def RecoverWithoutManifest (fs : FS) : FS × RecState × RecoveryStats :=
  (ListSegmentFiles (fs.map (·.1))).foldl rwmStep
    (fs, initialRecState, initialStats)

/-- `replayActiveWAL`'s apply loop: on the first record `applyRecord`
rejects, stop (the warning log performs no file truncation); otherwise
track the max LSN and count the record as replayed. -/
def replayActive : List Record → RecState → RecoveryStats → Nat →
    RecState × RecoveryStats × Nat
  | [], st, stats, replayed => (st, stats, replayed)
  | r :: rest, st, stats, replayed =>
    let (st', isErr) := applyRecord r st
    if isErr then (st', stats, replayed)
    else replayActive rest st'
      { stats with maxLSN := max stats.maxLSN r.lsn } (replayed + 1)

/-- `findActiveSegment`: the first active segment of the (sorted) manifest
listing whose file exists, falling back to `wal_<CurrentSegmentID>.seg`
when it exists. -/
def findActiveSegment (fs : FS) (segs : List SegmentInfo)
    (state : WALState) : Option SegName :=
  match segs.find? fun seg =>
      seg.status = SegmentStatus.active ∧ (fsRead fs seg.filename).isSome with
  | some seg => some seg.filename
  | none =>
    let fallback := SegmentFilename state.currentSegmentID
    if (fsRead fs fallback).isSome then some fallback else none

/-- The per-segment body of `Recover`'s main loop: skip archived segments;
verify the stored checksum of a sealed segment against the file (a missing
file or a mismatch is fatal); skip a missing non-sealed file; otherwise
replay the segment from `checkpoint_lsn + 1`, where an iterator error is
fatal. -/
def recoverSegment (fs : FS) (checkpointLSN : Nat)
    (acc : RecState × RecoveryStats) (seg : SegmentInfo) :
    Except WalError (RecState × RecoveryStats) :=
  if seg.status = SegmentStatus.archived then .ok acc
  else
    let checksumOK : Except WalError Unit :=
      if seg.status = SegmentStatus.sealed ∧ seg.checksum.isSome then
        match fsRead fs seg.filename, seg.checksum with
        | none, _ => .error .sealedSegmentMissing
        | some bytes, some cs =>
          if CalculateSegmentChecksum bytes = cs then .ok ()
          else .error .segmentChecksumMismatch
        | some _, none => .ok ()
      else .ok ()
    checksumOK.bind fun _ =>
      match fsRead fs seg.filename with
      | none =>
        if seg.status = SegmentStatus.sealed then .error .sealedSegmentMissing
        else .ok acc
      | some bytes =>
        let (recs, iterErr) := iterRecords bytes (checkpointLSN + 1)
        let (st, stats) := recs.foldl recoverApplyStep acc
        if iterErr then .error .segmentReadError
        else .ok (st, { stats with segmentsLoaded := stats.segmentsLoaded + 1 })

/-- `Recover`: manifest-assisted recovery.  Sort the manifest's non-archived
segments by ID, replay them from `checkpoint_lsn + 1` with the strict error
policy of `recoverSegment`, then replay the active WAL segment (if one can
be found) with the permissive stop-at-corruption policy. -/
def Recover (fs : FS) (info : RecoveryInfo) :
    FS × Except WalError (RecState × RecoveryStats) :=
  let segs := info.segments.mergeSort (fun a b => a.segmentID ≤ b.segmentID)
  let afterSegs : Except WalError (RecState × RecoveryStats) := segs.foldl
    (fun acc seg => acc.bind fun a =>
      recoverSegment fs info.state.checkpointLSN a seg)
    (.ok (initialRecState, initialStats))
  (fs,
    afterSegs.map fun (st, stats) =>
      match findActiveSegment fs segs info.state with
      | none => (st, stats)
      | some walPath =>
        match fsRead fs walPath with
        | none => (st, stats)
        | some bytes =>
          let (recs, _) := iterRecords bytes (info.state.checkpointLSN + 1)
          let (st, stats, replayed) := replayActive recs st stats 0
          (st, { stats with walRecordsReplayed := replayed }))

/-! ## Concrete inputs used by counterexamples and witnesses -/

/-- A 20-byte header with valid magic whose `payload_len` field is one over
the 10 MiB bound (type INSERT, LSN 1). -/
def c7hdr : List Nat :=
  leBytes 4 MagicBytes ++ [1, 0] ++ leBytes 2 0 ++ leBytes 8 1 ++
    leBytes 4 (MaxPayloadSize + 1)

/-- `c7hdr` completed with its valid header CRC: a 24-byte input whose
magic and header CRC are valid and whose `payload_len` exceeds 10 MiB. -/
def c7data : List Nat :=
  c7hdr ++ leBytes 4 (crc32 c7hdr)

/-- A writer opened with `WithInitialLSN(2^64 - 1)` under immediate sync
(the store facade passes `initial_lsn = recovered MaxLSN + 1`). -/
def c5writer : WALWriter :=
  { lsn := 2 ^ 64 - 1, offset := 0, pendingWrites := 0, segmentID := 1,
    maxSize := 64 * 1024 * 1024,
    syncPolicy := { immediate := true, interval := 0, batchSize := 0 },
    closed := false, cur := [], sealedFiles := [] }

/-- A writer opened with the default `initial_lsn = 1`. -/
def c5smallWriter : WALWriter :=
  { c5writer with lsn := 1 }

/-- Two immediate-sync appends of empty INSERT payloads. -/
def c5ops : List WriteOp :=
  [{ withSync := true, recType := 1, payload := [] },
   { withSync := true, recType := 1, payload := [] }]

/-- A fresh in-memory manifest with one WAL segment registered (active). -/
def c9m0 : InMemoryManifest :=
  InMemoryManifest.CreateSegment
    { segments := [],
      state := { currentSegmentID := 1, nextLSN := 1, checkpointLSN := 0 } }
    1 (SegName.wal 1) 0

/-- The manifest after sealing segment 1 once (status now `sealed`). -/
def c9m1 : InMemoryManifest :=
  match InMemoryManifest.SealSegment c9m0 1 7 1 with
  | .ok m => m
  | .error _ => c9m0

/-- The manifest after sealing the already-sealed segment 1 a second time. -/
def c9m2 : InMemoryManifest :=
  match InMemoryManifest.SealSegment c9m1 1 8 2 with
  | .ok m => m
  | .error _ => c9m1

/-- A decodable INSERT payload for doc id `[97]` with empty metadata JSON
slot and an all-zero embedding. -/
def c1insPayload : List Nat :=
  [1, 0] ++ [97] ++ [0, 0, 0, 0] ++ List.replicate 512 0

/-- A decodable DELETE payload for doc id `[97]`. -/
def c1delPayload : List Nat :=
  [1, 0, 97]

/-- INSERT record for doc `[97]` at LSN 1. -/
def c1ins : Record :=
  { magic := MagicBytes, type := RecordTypeInsert, flags := 0, reserved := 0,
    lsn := 1, payloadLen := c1insPayload.length, headerCRC := 0,
    payload := c1insPayload, payloadCRC := 0 }

/-- DELETE record for doc `[97]` at LSN 2. -/
def c1del : Record :=
  { magic := MagicBytes, type := RecordTypeDelete, flags := 0, reserved := 0,
    lsn := 2, payloadLen := c1delPayload.length, headerCRC := 0,
    payload := c1delPayload, payloadCRC := 0 }

/-- Insert-then-delete sequence on the single doc `[97]`. -/
def c1recs : List Record :=
  [c1ins, c1del]

/-- A record is an INSERT/UPDATE/DELETE addressing doc id `D` (its payload
decodes to `D`). -/
def addressesDoc (D : List Nat) (r : Record) : Prop :=
  (r.type = RecordTypeInsert ∨ r.type = RecordTypeUpdate ∨
    r.type = RecordTypeDelete) ∧ recDocID r = some D

instance (D : List Nat) (r : Record) : Decidable (addressesDoc D r) := by
  rw [addressesDoc]
  infer_instance

/-- INSERT record for doc `[97]` at LSN 1 (first input segment of the
compaction witness). -/
def c2ins : Record :=
  { c1ins with lsn := 1 }

/-- DELETE record for doc `[97]` at LSN 2 (second input segment of the
compaction witness). -/
def c2del : Record :=
  { c1del with lsn := 2 }

/-- Two single-record input segments: insert in WAL₁, delete in WAL₂. -/
def c2segs : List (List Record) :=
  [[c2ins], [c2del]]

/-! ## Byte-level infrastructure lemmas -/

theorem leBytes_length (k v : Nat) : (leBytes k v).length = k := by
  induction k generalizing v with
  | zero => rfl
  | succ k ih => simp [leBytes, ih]

theorem leBytes_mem_lt {k v b : Nat} (hb : b ∈ leBytes k v) : b < 256 := by
  induction k generalizing v with
  | zero => simp [leBytes] at hb
  | succ k ih =>
    simp only [leBytes, List.mem_cons] at hb
    rcases hb with h | h
    · omega
    · exact ih h

theorem readLE_leBytes (k v : Nat) (rest : List Nat) :
    readLE k (leBytes k v ++ rest) = v % 256 ^ k := by
  induction k generalizing v with
  | zero => simp [leBytes, readLE, Nat.mod_one]
  | succ k ih =>
    have h256 : (256 : Nat) ^ (k + 1) = 256 * 256 ^ k := by
      rw [pow_succ, Nat.mul_comm]
    show readLE (k + 1) (v % 256 :: (leBytes k (v / 256) ++ rest)) = _
    rw [readLE, ih, h256, Nat.mod_mul]

theorem readLE_leBytes_self {k v : Nat} (h : v < 256 ^ k) (rest : List Nat) :
    readLE k (leBytes k v ++ rest) = v := by
  rw [readLE_leBytes, Nat.mod_eq_of_lt h]

theorem crcBit_lt {x : Nat} (h : x < 2 ^ 32) : crcBit x < 2 ^ 32 := by
  have h1 : x >>> 1 < 2 ^ 32 := by
    rw [Nat.shiftRight_eq_div_pow]
    omega
  have h2 : crcPoly * (x % 2) < 2 ^ 32 := by
    have hx2 : x % 2 ≤ 1 := by omega
    have : crcPoly * (x % 2) ≤ crcPoly * 1 := Nat.mul_le_mul_left _ hx2
    rw [crcPoly] at this ⊢
    omega
  exact Nat.xor_lt_two_pow h1 h2

theorem iterate_crcBit_lt {x : Nat} (n : Nat) (h : x < 2 ^ 32) :
    crcBit^[n] x < 2 ^ 32 := by
  induction n with
  | zero => simpa using h
  | succ n ih => rw [Function.iterate_succ_apply']; exact crcBit_lt ih

theorem crcByte_lt {x b : Nat} (hx : x < 2 ^ 32) (hb : b < 256) :
    crcByte x b < 2 ^ 32 := by
  have : x ^^^ b < 2 ^ 32 := Nat.xor_lt_two_pow hx (by omega)
  exact iterate_crcBit_lt 8 this

theorem foldl_crcByte_lt {l : List Nat} {x : Nat} (hx : x < 2 ^ 32)
    (hb : ∀ b ∈ l, b < 256) : l.foldl crcByte x < 2 ^ 32 := by
  induction l generalizing x with
  | nil => simpa using hx
  | cons b rest ih =>
    simp only [List.foldl_cons]
    exact ih (crcByte_lt hx (hb b (by simp))) (fun c hc => hb c (by simp [hc]))

theorem crc32_lt {l : List Nat} (hb : ∀ b ∈ l, b < 256) : crc32 l < 2 ^ 32 := by
  have h1 : l.foldl crcByte 0xFFFFFFFF < 2 ^ 32 :=
    foldl_crcByte_lt (by norm_num) hb
  exact Nat.xor_lt_two_pow h1 (by norm_num)

theorem headerBytes_length (r : Record) : r.headerBytes.length = 20 := by
  simp [Record.headerBytes, leBytes_length]

theorem headerBytes_forall_lt (r : Record) : ∀ b ∈ r.headerBytes, b < 256 := by
  rw [Record.headerBytes]
  refine List.forall_mem_append.2 ⟨List.forall_mem_append.2
    ⟨List.forall_mem_append.2 ⟨List.forall_mem_append.2 ⟨?_, ?_⟩, ?_⟩, ?_⟩, ?_⟩
  · exact fun b hb => leBytes_mem_lt hb
  · intro b hb
    rcases List.mem_cons.1 hb with h | h
    · omega
    rcases List.mem_singleton.1 h with h
    omega
  · exact fun b hb => leBytes_mem_lt hb
  · exact fun b hb => leBytes_mem_lt hb
  · exact fun b hb => leBytes_mem_lt hb

theorem calculateHeaderCRC_lt (r : Record) : r.calculateHeaderCRC < 2 ^ 32 :=
  crc32_lt (headerBytes_forall_lt r)

theorem encode_length (r : Record) :
    r.Encode.length = 28 + r.payload.length := by
  simp [Record.Encode, headerBytes_length, leBytes_length]
  omega

/-- The first 20 bytes of an encoded record are exactly the CRC-covered
header bytes. -/
theorem encode_take_20 (r : Record) : r.Encode.take 20 = r.headerBytes := by
  have h : r.Encode = r.headerBytes ++ (leBytes 4 r.headerCRC ++
      (r.payload ++ leBytes 4 r.payloadCRC)) := by
    simp [Record.Encode, List.append_assoc]
  rw [h, ← headerBytes_length r, List.take_left]

theorem decode_encode (r : Record) (hm : r.magic = MagicBytes)
    (hty : r.type < 256) (hfl : r.flags < 256) (hres : r.reserved < 2 ^ 16)
    (hlsn : r.lsn < 2 ^ 64) (hpl : r.payloadLen = r.payload.length)
    (hplen : r.payload.length < 2 ^ 32)
    (hhc : r.headerCRC = r.calculateHeaderCRC)
    (hpc : r.payloadCRC = crc32 r.payload)
    (hb : ∀ b ∈ r.payload, b < 256) :
    DecodeRecord r.Encode = .ok r := by
  have hlen := encode_length r
  have hdata : r.Encode = leBytes 4 r.magic ++ (r.type % 256 ::
      (r.flags % 256 :: (leBytes 2 r.reserved ++ (leBytes 8 r.lsn ++
      (leBytes 4 r.payloadLen ++ (leBytes 4 r.headerCRC ++
      (r.payload ++ leBytes 4 r.payloadCRC))))))) := by
    simp [Record.Encode, Record.headerBytes, List.append_assoc]
  have d4 : r.Encode.drop 4 = r.type % 256 ::
      (r.flags % 256 :: (leBytes 2 r.reserved ++ (leBytes 8 r.lsn ++
      (leBytes 4 r.payloadLen ++ (leBytes 4 r.headerCRC ++
      (r.payload ++ leBytes 4 r.payloadCRC)))))) := by
    rw [hdata, List.drop_left' (leBytes_length 4 r.magic)]
  have d6 : r.Encode.drop 6 = leBytes 2 r.reserved ++ (leBytes 8 r.lsn ++
      (leBytes 4 r.payloadLen ++ (leBytes 4 r.headerCRC ++
      (r.payload ++ leBytes 4 r.payloadCRC)))) := by
    rw [show (6 : Nat) = 4 + 2 from rfl, ← List.drop_drop, d4]
    rfl
  have d8 : r.Encode.drop 8 = leBytes 8 r.lsn ++
      (leBytes 4 r.payloadLen ++ (leBytes 4 r.headerCRC ++
      (r.payload ++ leBytes 4 r.payloadCRC))) := by
    rw [show (8 : Nat) = 6 + 2 from rfl, ← List.drop_drop, d6,
      List.drop_left' (leBytes_length 2 r.reserved)]
  have d16 : r.Encode.drop 16 = leBytes 4 r.payloadLen ++
      (leBytes 4 r.headerCRC ++ (r.payload ++ leBytes 4 r.payloadCRC)) := by
    rw [show (16 : Nat) = 8 + 8 from rfl, ← List.drop_drop, d8,
      List.drop_left' (leBytes_length 8 r.lsn)]
  have d20 : r.Encode.drop 20 = leBytes 4 r.headerCRC ++
      (r.payload ++ leBytes 4 r.payloadCRC) := by
    rw [show (20 : Nat) = 16 + 4 from rfl, ← List.drop_drop, d16,
      List.drop_left' (leBytes_length 4 r.payloadLen)]
  have d24 : r.Encode.drop 24 = r.payload ++ leBytes 4 r.payloadCRC := by
    rw [show (24 : Nat) = 20 + 4 from rfl, ← List.drop_drop, d20,
      List.drop_left' (leBytes_length 4 r.headerCRC)]
  have d24n : r.Encode.drop (24 + r.payloadLen) = leBytes 4 r.payloadCRC := by
    rw [← List.drop_drop, d24, List.drop_left' hpl.symm]
  have e1 : readLE 4 r.Encode = r.magic := by
    rw [hdata, readLE_leBytes_self]
    rw [hm, MagicBytes]; norm_num
  have e2 : byteAt r.Encode 4 = r.type := by
    rw [byteAt, List.getD_eq_getElem?_getD, show (4 : Nat) = 4 + 0 from rfl,
      ← List.getElem?_drop, d4]
    simp [Nat.mod_eq_of_lt hty]
  have e3 : byteAt r.Encode 5 = r.flags := by
    rw [byteAt, List.getD_eq_getElem?_getD,
      show (5 : Nat) = 4 + 1 from rfl, ← List.getElem?_drop, d4]
    simp [Nat.mod_eq_of_lt hfl]
  have e4 : readLE 2 (r.Encode.drop 6) = r.reserved := by
    rw [d6, readLE_leBytes_self]
    · exact lt_of_lt_of_le hres (by norm_num)
  have e5 : readLE 8 (r.Encode.drop 8) = r.lsn := by
    rw [d8, readLE_leBytes_self]
    · exact lt_of_lt_of_le hlsn (by norm_num)
  have e6 : readLE 4 (r.Encode.drop 16) = r.payloadLen := by
    rw [d16, readLE_leBytes_self]
    · rw [hpl]; exact lt_of_lt_of_le hplen (by norm_num)
  have e7 : readLE 4 (r.Encode.drop 20) = r.headerCRC := by
    rw [d20, readLE_leBytes_self]
    · rw [hhc]; exact lt_of_lt_of_le (calculateHeaderCRC_lt r) (by norm_num)
  have e8 : (r.Encode.drop 24).take r.payloadLen = r.payload := by
    rw [d24, List.take_left' hpl.symm]
  have e9 : readLE 4 (r.Encode.drop (24 + r.payloadLen)) = r.payloadCRC := by
    rw [d24n, show leBytes 4 r.payloadCRC = leBytes 4 r.payloadCRC ++ [] by
      simp, readLE_leBytes_self]
    · rw [hpc]; exact lt_of_lt_of_le (crc32_lt hb) (by norm_num)
  dsimp only [DecodeRecord, decodeHeader, HeaderSize]
  rw [if_neg (by omega)]
  rw [e1, e2, e3, e4, e5, e6, e7]
  rw [if_neg (by rw [hm]; simp)]
  have hchc : Record.calculateHeaderCRC
      { magic := r.magic, type := r.type, flags := r.flags,
        reserved := r.reserved, lsn := r.lsn, payloadLen := r.payloadLen,
        headerCRC := r.headerCRC, payload := [], payloadCRC := 0 }
      = r.calculateHeaderCRC := rfl
  rw [hchc, if_neg (by rw [hhc]; simp)]
  rw [if_neg (by omega)]
  rw [e8, e9, if_neg (by rw [hpc]; simp)]

/-- `calculateHeaderCRC` ignores the `headerCRC`, `payload` and
`payloadCRC` fields. -/
theorem calculateHeaderCRC_update (r : Record) (hc pc : Nat) (p : List Nat) :
    Record.calculateHeaderCRC
      { r with headerCRC := hc, payloadCRC := pc, payload := p } =
      Record.calculateHeaderCRC r := rfl

/-! ## C4 — record round-trip -/

/-- C4: For every record type in {INSERT, UPDATE, DELETE, CHECKPOINT}, every
64-bit LSN, and every payload of length at most 10 MiB,
`DecodeRecord (NewRecord(type, lsn, payload).Encode())` succeeds and returns
a record equal to the original (all header fields, payload bytes and CRCs
included). -/
theorem C4_record_roundtrip (ty lsn : Nat) (payload : List Nat)
    (hty : ty = RecordTypeInsert ∨ ty = RecordTypeUpdate ∨
      ty = RecordTypeDelete ∨ ty = RecordTypeCheckpoint)
    (hlsn : lsn < 2 ^ 64) (hbytes : ∀ b ∈ payload, b < 256)
    (hlen : payload.length ≤ MaxPayloadSize) :
    ∃ r, NewRecord ty lsn payload = .ok r ∧ DecodeRecord r.Encode = .ok r := by
  have hty' : ty < 256 := by
    rcases hty with h | h | h | h <;>
      simp [h, RecordTypeInsert, RecordTypeUpdate, RecordTypeDelete,
        RecordTypeCheckpoint]
  have hguard : ¬ payload.length > MaxPayloadSize := by omega
  refine ⟨{ magic := MagicBytes, type := ty, flags := 0, reserved := 0,
            lsn := lsn, payloadLen := payload.length,
            headerCRC := Record.calculateHeaderCRC
              { magic := MagicBytes, type := ty, flags := 0, reserved := 0,
                lsn := lsn, payloadLen := payload.length, headerCRC := 0,
                payload := payload, payloadCRC := 0 },
            payload := payload, payloadCRC := crc32 payload }, ?_, ?_⟩
  · rw [NewRecord, if_neg hguard]
  · apply decode_encode
    · rfl
    · exact hty'
    · norm_num
    · norm_num
    · exact hlsn
    · rfl
    · show payload.length < 2 ^ 32
      have : MaxPayloadSize < 2 ^ 32 := by rw [MaxPayloadSize]; norm_num
      omega
    · exact (calculateHeaderCRC_update
        { magic := MagicBytes, type := ty, flags := 0, reserved := 0,
          lsn := lsn, payloadLen := payload.length, headerCRC := 0,
          payload := payload, payloadCRC := 0 } _ _ payload).symm
    · rfl
    · exact hbytes

/-- Witness for C4 at a concrete record. -/
theorem C4_record_roundtrip_witness :
    ∃ r, NewRecord 1 7 [1, 2, 3] = .ok r ∧ DecodeRecord r.Encode = .ok r :=
  C4_record_roundtrip 1 7 [1, 2, 3] (Or.inl rfl) (by norm_num) (by decide)
    (by decide)

/-! ## C7 — `DecodeRecord` and the payload bound -/

set_option maxRecDepth 100000 in
/-- C7 (counterexample): on a 24-byte input with valid magic, valid header
CRC and `payload_len = 10 MiB + 1`, `DecodeRecord` fails with the truncated
("data too short for payload") error, not with a payload-too-large error —
no such check exists in `DecodeRecord`. -/
theorem C7_counterexample :
    24 ≤ c7data.length ∧
    (decodeHeader c7data).magic = MagicBytes ∧
    (decodeHeader c7data).headerCRC = (decodeHeader c7data).calculateHeaderCRC ∧
    MaxPayloadSize < (decodeHeader c7data).payloadLen ∧
    DecodeRecord c7data = .error .dataTooShortPayload ∧
    DecodeRecord c7data ≠ .error .payloadTooLarge := by
  refine ⟨by decide, by decide, by decide, by decide, by decide, by decide⟩

/-- C7 (amended): `DecodeRecord` enforces no payload-size bound.  For every
input of length at least 24 whose magic and header CRC are valid and whose
`payload_len` field exceeds 10 MiB, if the input is shorter than the
declared total length `24 + payload_len + 4` (in particular whenever the
input is at most 10 MiB + 27 bytes long), `DecodeRecord` fails with the
`Truncated` ("data too short for payload") error instead of
`PayloadTooLarge`. -/
theorem C7_decode_no_payload_bound (data : List Nat)
    (h24 : ¬ data.length < 24)
    (hmagic : (decodeHeader data).magic = MagicBytes)
    (hcrc : (decodeHeader data).headerCRC =
      (decodeHeader data).calculateHeaderCRC)
    (hshort : data.length < 24 + (decodeHeader data).payloadLen + 4) :
    DecodeRecord data = .error .dataTooShortPayload := by
  rw [DecodeRecord]
  rw [if_neg (by simpa [HeaderSize] using h24)]
  simp only []
  rw [if_neg (by simp [hmagic]), if_neg (by simp [hcrc]),
    if_pos (by simpa [HeaderSize] using hshort)]

set_option maxRecDepth 100000 in
/-- Witness for the amended C7 at the concrete oversized-header input. -/
theorem C7_decode_no_payload_bound_witness :
    DecodeRecord c7data = .error .dataTooShortPayload :=
  C7_decode_no_payload_bound c7data (by decide) (by decide) (by decide)
    (by decide)

/-! ## C5 — monotone LSN -/

/-- The allocator after one append call: unchanged on a closed writer,
otherwise bumped by one with `uint64` wrap-around, whether or not the call
succeeds. -/
theorem appendOp_lsn (w : WALWriter) (op : WriteOp) :
    (appendOp w op).1.lsn =
      if w.closed then w.lsn else (w.lsn + 1) % U64 := by
  rcases op with ⟨ws, ty, p⟩
  rw [appendOp]
  by_cases hc : w.closed
  · cases ws <;> simp [WALWriter.Append, WALWriter.AppendWithSync, hc]
  · cases ws <;>
      · simp only [WALWriter.Append, WALWriter.AppendWithSync, hc,
          Bool.false_eq_true, ite_false]
        rcases h : NewRecord ty (w.lsn) p with e | r <;>
          simp [h, WALWriter.syncLocked, WALWriter.rotateLocked] <;>
          split_ifs <;> rfl

/-- A successful append call returns the pre-bump allocator value, and only
an open writer can succeed. -/
theorem appendOp_ok {w : WALWriter} {op : WriteOp} {lsn : Nat}
    (h : (appendOp w op).2 = .ok lsn) : lsn = w.lsn ∧ w.closed = false := by
  rcases op with ⟨ws, ty, p⟩
  rw [appendOp] at h
  by_cases hc : w.closed
  · exfalso
    cases ws <;> simp [WALWriter.Append, WALWriter.AppendWithSync, hc] at h
  · refine ⟨?_, by simpa using hc⟩
    cases ws
    · rcases hr : NewRecord ty (w.lsn) p with e | r
      · simp [WALWriter.Append, hc, hr] at h
      · simp [WALWriter.Append, hc, hr] at h
        exact h.symm
    · rcases hr : NewRecord ty (w.lsn) p with e | r
      · simp [WALWriter.AppendWithSync, hc, hr] at h
      · simp [WALWriter.AppendWithSync, hc, hr] at h
        exact h.symm

/-- Every successful LSN of a call sequence is at least the initial
allocator value, when the allocator cannot wrap. -/
theorem successLSNs_ge (ops : List WriteOp) (w : WALWriter) (lsn : Nat)
    (hnw : w.lsn + ops.length < U64)
    (hmem : lsn ∈ successLSNs (runAppends w ops)) : w.lsn ≤ lsn := by
  induction ops generalizing w with
  | nil => simp [runAppends, successLSNs] at hmem
  | cons op rest ih =>
    simp only [List.length_cons, U64] at hnw
    have hle : w.lsn ≤ (appendOp w op).1.lsn ∧
        (appendOp w op).1.lsn ≤ w.lsn + 1 := by
      rw [appendOp_lsn]
      split_ifs
      · omega
      · simp only [U64]
        omega
    have hpre : (appendOp w op).1.lsn + rest.length < U64 := by
      simp only [U64]
      omega
    rw [runAppends] at hmem
    rcases hres : (appendOp w op).2 with e | l <;>
      rw [hres] at hmem <;>
      simp only [successLSNs, List.filterMap_cons] at hmem
    · have := ih (appendOp w op).1 hpre hmem
      omega
    · rcases List.mem_cons.1 hmem with h | h
      · rcases appendOp_ok hres with ⟨h1, _⟩
        omega
      · have := ih (appendOp w op).1 hpre h
        omega

/-- C5 (amended): for any sequence of `Append`/`AppendWithSync` calls on a
single WAL writer during which the 64-bit LSN allocator does not wrap
around, the LSNs returned by the successful calls are strictly increasing
in call order. -/
theorem C5_monotone_lsn (w : WALWriter) (ops : List WriteOp)
    (hnw : w.lsn + ops.length < U64) :
    List.Pairwise (· < ·) (successLSNs (runAppends w ops)) := by
  induction ops generalizing w with
  | nil => simp [runAppends, successLSNs]
  | cons op rest ih =>
    simp only [List.length_cons, U64] at hnw
    have hle : w.lsn ≤ (appendOp w op).1.lsn ∧
        (appendOp w op).1.lsn ≤ w.lsn + 1 := by
      rw [appendOp_lsn]
      split_ifs
      · omega
      · simp only [U64]
        omega
    have hpre : (appendOp w op).1.lsn + rest.length < U64 := by
      simp only [U64]
      omega
    rw [runAppends]
    rcases hres : (appendOp w op).2 with e | l <;>
      simp only [successLSNs, List.filterMap_cons]
    · exact ih (appendOp w op).1 hpre
    · rcases appendOp_ok hres with ⟨h1, hcl⟩
      have hlsn2 : (appendOp w op).1.lsn = w.lsn + 1 := by
        rw [appendOp_lsn, if_neg (by simp [hcl]), Nat.mod_eq_of_lt
          (by simp only [U64]; omega)]
      refine List.Pairwise.cons ?_ (ih (appendOp w op).1 hpre)
      intro L hL
      have := successLSNs_ge rest (appendOp w op).1 L hpre hL
      omega

/-- Witness for the amended C5 on a concrete writer and two appends. -/
theorem C5_monotone_lsn_witness :
    List.Pairwise (· < ·) (successLSNs (runAppends c5smallWriter c5ops)) :=
  C5_monotone_lsn c5smallWriter c5ops (by decide)

set_option maxRecDepth 1000000 in
/-- C5 (counterexample): on a writer whose allocator sits at `2^64 - 1`
(reachable through `WithInitialLSN`, which the store facade feeds from
recovered LSNs), two successful appends return `2^64 - 1` and then `0` —
`atomic.AddUint64` wraps, so the claim's strict increase fails. -/
theorem C5_counterexample :
    successLSNs (runAppends c5writer c5ops) = [2 ^ 64 - 1, 0] ∧
      ¬ (2 ^ 64 - 1 < 0) := by
  exact ⟨by decide, by decide⟩

/-! ## C6 — CMP namespace isolation at startup -/

/-- In a `≤`-sorted-by-key list, every element's key is at most the key of
the last element. -/
theorem sortKey_le_getLast {α : Type} (f : α → Nat) :
    ∀ (l : List α), List.Pairwise (fun a b => f a ≤ f b) l →
      ∀ x ∈ l, ∀ y, l.getLast? = some y → f x ≤ f y := by
  intro l
  induction l with
  | nil => intro _ x hx; simp at hx
  | cons a t ih =>
    intro hp x hx y hy
    rcases List.pairwise_cons.1 hp with ⟨ha, ht⟩
    cases t with
    | nil =>
      simp at hx hy
      rw [hx, hy]
    | cons b t' =>
      rw [List.getLast?_cons_cons] at hy
      have hylast : y ∈ b :: t' := List.mem_of_mem_getLast? hy
      rcases List.mem_cons.1 hx with h | h
      · rw [h]
        exact ha y hylast
      · exact ih ht x h y hy

/-- C6: the WAL-only listing behind the writer's initial segment ID.
(a) `FindLatestWALSegment` dominates every `wal_` ID in the directory,
(b) it is blind to `cmp_` entries, and (c) consequently `NewWALStore`'s
`initial_segment_id` is unchanged by adding a `cmp_` segment file of any
(in particular a higher) ID. -/
theorem C6_cmp_namespace_isolation (manifestSegID : Option Nat)
    (dir : List SegName) (id : Nat) :
    (∀ i, SegName.wal i ∈ dir → i ≤ (FindLatestWALSegment dir).2) ∧
    FindLatestWALSegment (dir ++ [SegName.cmp id]) = FindLatestWALSegment dir ∧
    computeInitialSegmentID manifestSegID (dir ++ [SegName.cmp id]) =
      computeInitialSegmentID manifestSegID dir := by
  have hfilter : ∀ (d : List SegName),
      (d ++ [SegName.cmp id]).filter
        (fun n => match n with | .wal _ => true | _ => false) =
      d.filter (fun n => match n with | .wal _ => true | _ => false) := by
    intro d
    rw [List.filter_append]
    simp
  have hlist : ListWALSegmentFiles (dir ++ [SegName.cmp id]) =
      ListWALSegmentFiles dir := by
    rw [ListWALSegmentFiles, ListWALSegmentFiles, hfilter]
  refine ⟨?_, ?_, ?_⟩
  · intro i hi
    have hmem : SegName.wal i ∈ ListWALSegmentFiles dir := by
      rw [ListWALSegmentFiles]
      have : SegName.wal i ∈ dir.filter
          (fun n => match n with | .wal _ => true | _ => false) :=
        List.mem_filter.2 ⟨hi, rfl⟩
      exact ((List.mergeSort_perm _ _).mem_iff).2 this
    have hsorted := @List.sorted_mergeSort SegName
      (fun a b : SegName => decide (segSortID a ≤ segSortID b))
      (fun a b c hab hbc => by
        simp only [decide_eq_true_eq] at hab hbc ⊢
        omega)
      (fun a b => by
        simp only [Bool.or_eq_true, decide_eq_true_eq]
        omega)
      (dir.filter (fun n => match n with | .wal _ => true | _ => false))
    have hp : List.Pairwise
        (fun a b => segSortID a ≤ segSortID b) (ListWALSegmentFiles dir) := by
      rw [ListWALSegmentFiles]
      exact hsorted.imp (by simp)
    rw [FindLatestWALSegment]
    rcases hlast : (ListWALSegmentFiles dir).getLast? with _ | y
    · exfalso
      rw [List.getLast?_eq_none_iff] at hlast
      rw [hlast] at hmem
      simp at hmem
    · simpa using sortKey_le_getLast segSortID _ hp _ hmem y hlast
  · rw [FindLatestWALSegment, FindLatestWALSegment, hlist]
  · simp only [computeInitialSegmentID, FindLatestWALSegment, hlist]

/-- Witness for C6 on a concrete directory where the CMP ID (10) is higher
than every WAL ID. -/
theorem C6_cmp_namespace_isolation_witness :
    3 ≤ (FindLatestWALSegment [SegName.wal 1, SegName.wal 3]).2 ∧
    computeInitialSegmentID none
        ([SegName.wal 1, SegName.wal 3] ++ [SegName.cmp 10]) =
      computeInitialSegmentID none [SegName.wal 1, SegName.wal 3] :=
  ⟨(C6_cmp_namespace_isolation none [SegName.wal 1, SegName.wal 3] 10).1 3
      (by decide),
    (C6_cmp_namespace_isolation none [SegName.wal 1, SegName.wal 3] 10).2.2⟩

/-! ## C9 — sealing segments -/

/-- C9 (amended): sealing behavior of the two manifest backends.  The
transactional backend's `SealSegment` errors when no `(wal, id)` row is
`active` and otherwise stamps `sealed_at` and the checksum on exactly the
active rows; the in-memory backend errors only when the segment is absent
and otherwise seals it whatever its current status. -/
theorem C9_seal_behavior (rows : List SegmentInfo) (id cs now : Nat)
    (m : InMemoryManifest) :
    ((∀ s ∈ rows, ¬ sealHits id s) →
      PostgresManifest.SealSegment rows id cs now = .error .segmentNotFound) ∧
    ((∃ s ∈ rows, sealHits id s) →
      PostgresManifest.SealSegment rows id cs now = .ok (rows.map fun s =>
        if sealHits id s then
          { s with status := .sealed, sealedAt := some now,
                   checksum := some cs }
        else s)) ∧
    (alGet m.segments (SegType.wal, id) = none →
      InMemoryManifest.SealSegment m id cs now = .error .segmentNotFound) ∧
    (∀ seg, alGet m.segments (SegType.wal, id) = some seg →
      ∃ m' : InMemoryManifest,
        InMemoryManifest.SealSegment m id cs now = .ok m' ∧
        m'.state = m.state ∧
        m'.segments = alSet m.segments (SegType.wal, id)
          { seg with status := .sealed, sealedAt := some now,
                     checksum := some cs }) := by
  refine ⟨?_, ?_, ?_, ?_⟩
  · intro h
    rw [PostgresManifest.SealSegment, if_pos]
    rw [List.length_eq_zero, List.filter_eq_nil_iff]
    intro s hs
    simpa using h s hs
  · intro h
    rw [PostgresManifest.SealSegment, if_neg]
    intro hzero
    rw [List.length_eq_zero, List.filter_eq_nil_iff] at hzero
    rcases h with ⟨s, hs, hhit⟩
    exact absurd hhit (by simpa using hzero s hs)
  · intro h
    rw [InMemoryManifest.SealSegment, h]
  · intro seg h
    refine ⟨{ m with segments := alSet m.segments (SegType.wal, id) { seg with status := .sealed, sealedAt := some now, checksum := some cs } }, ?_, rfl, rfl⟩
    rw [InMemoryManifest.SealSegment, h]

/-- Witness for the amended C9: a Postgres table with one active row is
sealed; the in-memory manifest seals a registered segment. -/
theorem C9_seal_behavior_witness :
    PostgresManifest.SealSegment
        [{ segmentID := 1, segmentType := .wal, filename := SegName.wal 1,
           sizeBytes := 0, recordCount := 0, minLSN := none, maxLSN := none,
           status := .active, createdAt := 0, sealedAt := none,
           checksum := none }] 1 7 5 =
      .ok [{ segmentID := 1, segmentType := .wal, filename := SegName.wal 1,
             sizeBytes := 0, recordCount := 0, minLSN := none, maxLSN := none,
             status := .sealed, createdAt := 0, sealedAt := some 5,
             checksum := some 7 }] := by
  have h := (C9_seal_behavior
    [{ segmentID := 1, segmentType := .wal, filename := SegName.wal 1,
       sizeBytes := 0, recordCount := 0, minLSN := none, maxLSN := none,
       status := .active, createdAt := 0, sealedAt := none,
       checksum := none }] 1 7 5 c9m0).2.1 (by decide)
  rw [h]
  rfl

/-- C9 (counterexample): on the in-memory backend, sealing segment 1 (which
`CreateSegment` registered as active) succeeds, leaves it with status
`sealed`, and a second `SealSegment` call on the now non-active segment
still succeeds instead of returning an error. -/
theorem C9_counterexample :
    InMemoryManifest.SealSegment c9m0 1 7 1 = .ok c9m1 ∧
    (alGet c9m1.segments (SegType.wal, 1)).map SegmentInfo.status =
      some SegmentStatus.sealed ∧
    InMemoryManifest.SealSegment c9m1 1 8 2 = .ok c9m2 := by
  exact ⟨by decide, by decide, by decide⟩

/-! ## C1 — last-write-wins recovery -/

theorem replay_append (l1 l2 : List Record) (st : RecState) :
    replay (l1 ++ l2) st = replay l2 (replay l1 st) := by
  simp [replay, List.foldl_append]

/-- When the per-doc map has nothing at least as new for the record's doc,
`applyRecord` installs the record's outcome and its LSN. -/
theorem applyRecord_applies (rec : Record) (st : RecState) (D : List Nat)
    (ht : rec.type = RecordTypeInsert ∨ rec.type = RecordTypeUpdate ∨
      rec.type = RecordTypeDelete)
    (hd : recDocID rec = some D)
    (hfresh : ∀ l, st.docLSN D = some l → l < rec.lsn) :
    (applyRecord rec st).1 =
      { index := updFun st.index D (docOutcome rec),
        docLSN := updFun st.docLSN D (some rec.lsn) } := by
  rcases ht with h | h | h
  · rcases hdec : DecodeDocPayload rec.payload with e | ⟨d, m, em⟩
    · rw [recDocID, if_pos (Or.inl h), hdec] at hd
      cases hd
    · have hD : d = D := by
        rw [recDocID, if_pos (Or.inl h), hdec] at hd
        exact Option.some.inj hd
      rw [hD] at hdec
      have hout : docOutcome rec = some ⟨D, m, em⟩ := by
        rw [docOutcome, if_neg (by rw [h]; decide), hdec]
      rcases hsl : st.docLSN D with _ | l
      · simp [applyRecord, h, hdec, hsl, hout, RecordTypeInsert, RecordTypeUpdate, RecordTypeDelete]
      · have := hfresh l hsl
        simp [applyRecord, h, hdec, hsl, hout, RecordTypeInsert, RecordTypeUpdate, RecordTypeDelete]
        rw [if_neg (by omega)]
  · rcases hdec : DecodeDocPayload rec.payload with e | ⟨d, m, em⟩
    · rw [recDocID, if_pos (Or.inr h), hdec] at hd
      cases hd
    · have hD : d = D := by
        rw [recDocID, if_pos (Or.inr h), hdec] at hd
        exact Option.some.inj hd
      rw [hD] at hdec
      have hout : docOutcome rec = some ⟨D, m, em⟩ := by
        rw [docOutcome, if_neg (by rw [h]; decide), hdec]
      rcases hsl : st.docLSN D with _ | l
      · simp [applyRecord, h, hdec, hsl, hout, RecordTypeInsert, RecordTypeUpdate, RecordTypeDelete]
      · have := hfresh l hsl
        simp [applyRecord, h, hdec, hsl, hout, RecordTypeInsert, RecordTypeUpdate, RecordTypeDelete]
        rw [if_neg (by omega)]
  · rcases hdec : DecodeDeletePayload rec.payload with e | d
    · rw [recDocID, if_neg (by rw [h]; decide), if_pos h, hdec] at hd
      cases hd
    · have hD : d = D := by
        rw [recDocID, if_neg (by rw [h]; decide), if_pos h, hdec] at hd
        exact Option.some.inj hd
      rw [hD] at hdec
      have hout : docOutcome rec = none := by
        rw [docOutcome, if_pos h]
      rcases hsl : st.docLSN D with _ | l
      · simp [applyRecord, h, hdec, hsl, hout, RecordTypeInsert, RecordTypeUpdate, RecordTypeDelete]
      · have := hfresh l hsl
        simp [applyRecord, h, hdec, hsl, hout, RecordTypeInsert, RecordTypeUpdate, RecordTypeDelete]
        rw [if_neg (by omega)]

/-- When the per-doc map already holds an LSN at least as large,
`applyRecord` is a no-op ("stale record"). -/
theorem applyRecord_stale (rec : Record) (st : RecState) (D : List Nat)
    (l : Nat)
    (ht : rec.type = RecordTypeInsert ∨ rec.type = RecordTypeUpdate ∨
      rec.type = RecordTypeDelete)
    (hd : recDocID rec = some D)
    (hsl : st.docLSN D = some l) (hge : rec.lsn ≤ l) :
    (applyRecord rec st).1 = st := by
  rcases ht with h | h | h
  · rcases hdec : DecodeDocPayload rec.payload with e | ⟨d, m, em⟩
    · rw [recDocID, if_pos (Or.inl h), hdec] at hd
      cases hd
    · have hD : d = D := by
        rw [recDocID, if_pos (Or.inl h), hdec] at hd
        exact Option.some.inj hd
      rw [hD] at hdec
      simp [applyRecord, h, hdec, hsl, RecordTypeInsert, RecordTypeUpdate, RecordTypeDelete]
      rw [if_pos (by omega)]
  · rcases hdec : DecodeDocPayload rec.payload with e | ⟨d, m, em⟩
    · rw [recDocID, if_pos (Or.inr h), hdec] at hd
      cases hd
    · have hD : d = D := by
        rw [recDocID, if_pos (Or.inr h), hdec] at hd
        exact Option.some.inj hd
      rw [hD] at hdec
      simp [applyRecord, h, hdec, hsl, RecordTypeInsert, RecordTypeUpdate, RecordTypeDelete]
      rw [if_pos (by omega)]
  · rcases hdec : DecodeDeletePayload rec.payload with e | d
    · rw [recDocID, if_neg (by rw [h]; decide), if_pos h, hdec] at hd
      cases hd
    · have hD : d = D := by
        rw [recDocID, if_neg (by rw [h]; decide), if_pos h, hdec] at hd
        exact Option.some.inj hd
      rw [hD] at hdec
      simp [applyRecord, h, hdec, hsl, RecordTypeInsert, RecordTypeUpdate, RecordTypeDelete]
      rw [if_pos (by omega)]

/-- Replay invariant for a single-doc record sequence: the state holds the
outcome of a maximal-LSN record of the sequence, and the per-doc map holds
its LSN. -/
theorem replay_single_doc (D : List Nat) (recs : List Record) :
    recs ≠ [] →
    (∀ r ∈ recs, r.type = RecordTypeInsert ∨ r.type = RecordTypeUpdate ∨
      r.type = RecordTypeDelete) →
    (∀ r ∈ recs, recDocID r = some D) →
    ∃ rm, rm ∈ recs ∧ (∀ r ∈ recs, r.lsn ≤ rm.lsn) ∧
      (replay recs initialRecState).docLSN D = some rm.lsn ∧
      (replay recs initialRecState).index D = docOutcome rm := by
  induction recs using List.reverseRecOn with
  | nil => intro h; exact absurd rfl h
  | append_singleton xs x ih =>
    intro _ htypes hdocs
    have hstep : replay (xs ++ [x]) initialRecState =
        (applyRecord x (replay xs initialRecState)).1 := by
      rw [replay_append]
      rfl
    by_cases hxs : xs = []
    · subst hxs
      rw [show replay [] initialRecState = initialRecState from rfl] at hstep
      have hx := applyRecord_applies x initialRecState D
        (htypes x (by simp)) (hdocs x (by simp))
        (by intro l hl; rw [initialRecState] at hl; cases hl)
      refine ⟨x, by simp, by simp, ?_, ?_⟩
      · rw [hstep, hx]
        simp [updFun]
      · rw [hstep, hx]
        simp [updFun]
    · obtain ⟨rm, hmem, hbound, hdl, hidx⟩ := ih hxs
        (fun r hr => htypes r (by simp [hr]))
        (fun r hr => hdocs r (by simp [hr]))
      by_cases hle : x.lsn ≤ rm.lsn
      · have hst := applyRecord_stale x (replay xs initialRecState) D rm.lsn
          (htypes x (by simp)) (hdocs x (by simp)) hdl hle
        refine ⟨rm, by simp [hmem], ?_, ?_, ?_⟩
        · intro r hr
          rcases List.mem_append.1 hr with h | h
          · exact hbound r h
          · rw [List.mem_singleton.1 h]
            exact hle
        · rw [hstep, hst]
          exact hdl
        · rw [hstep, hst]
          exact hidx
      · have hx := applyRecord_applies x (replay xs initialRecState) D
          (htypes x (by simp)) (hdocs x (by simp))
          (by intro l hl
              rw [hdl] at hl
              cases hl
              omega)
        refine ⟨x, by simp, ?_, ?_, ?_⟩
        · intro r hr
          rcases List.mem_append.1 hr with h | h
          · have := hbound r h
            omega
          · rw [List.mem_singleton.1 h]
        · rw [hstep, hx]
          simp [updFun]
        · rw [hstep, hx]
          simp [updFun]

/-- C1: for every sequence of INSERT/UPDATE/DELETE records all addressing a
single doc id `D` (decodable payloads), replaying the sequence through the
recovery apply rule (`applyRecord` with the per-doc last-seen-LSN map)
leaves the index entry for `D` in the state dictated by the single record
with the highest LSN among them: absent when it is a DELETE, present with
that record's decoded contents when it is an INSERT/UPDATE. -/
theorem C1_last_write_wins (recs : List Record) (D : List Nat)
    (rstar : Record)
    (htypes : ∀ r ∈ recs, r.type = RecordTypeInsert ∨
      r.type = RecordTypeUpdate ∨ r.type = RecordTypeDelete)
    (hdocs : ∀ r ∈ recs, recDocID r = some D)
    (hmem : rstar ∈ recs)
    (hmax : ∀ r ∈ recs, r = rstar ∨ r.lsn < rstar.lsn) :
    (replay recs initialRecState).index D = docOutcome rstar ∧
    (rstar.type = RecordTypeDelete →
      (replay recs initialRecState).index D = none) ∧
    (∀ meta emb, rstar.type ≠ RecordTypeDelete →
      DecodeDocPayload rstar.payload = .ok (D, meta, emb) →
      (replay recs initialRecState).index D = some ⟨D, meta, emb⟩) := by
  obtain ⟨rm, hm, hbound, _, hidx⟩ := replay_single_doc D recs
    (by intro h; rw [h] at hmem; cases hmem) htypes hdocs
  have hrm : rm = rstar := by
    rcases hmax rm hm with h | h
    · exact h
    · have := hbound rstar hmem
      omega
  rw [hrm] at hidx
  refine ⟨hidx, ?_, ?_⟩
  · intro hdel
    rw [hidx, docOutcome, if_pos hdel]
  · intro meta emb hnd hdec
    rw [hidx, docOutcome, if_neg hnd, hdec]

set_option maxRecDepth 1000000 in
/-- Witness for C1: an INSERT of doc `[97]` at LSN 1 followed by its DELETE
at LSN 2 leaves the index without the doc. -/
theorem C1_last_write_wins_witness :
    (replay c1recs initialRecState).index [97] = none :=
  (C1_last_write_wins c1recs [97] c1del (by decide) (by decide) (by decide)
    (by decide)).2.1 (by decide)

/-! ## C2 — compaction preserves tombstones -/

theorem alGet_alSet_self {α β : Type} [DecidableEq α] (m : List (α × β))
    (k : α) (v : β) : alGet (alSet m k v) k = some v := by
  induction m with
  | nil => simp [alSet, alGet]
  | cons kv rest ih =>
    rw [alSet]
    by_cases h : k = kv.1
    · simp [alGet, h]
    · simp [alGet, h, ih]

theorem alGet_alSet_ne {α β : Type} [DecidableEq α] (m : List (α × β))
    (k k' : α) (v : β) (h : k' ≠ k) :
    alGet (alSet m k v) k' = alGet m k' := by
  induction m with
  | nil => simp [alSet, alGet, h]
  | cons kv rest ih =>
    rw [alSet]
    by_cases hk : k = kv.1
    · subst hk
      simp [alGet, h]
    · by_cases hk' : k' = kv.1
      · simp [alGet, hk', hk]
      · simp [alGet, hk', hk, ih]

theorem alGet_alErase_self {α β : Type} [DecidableEq α] (m : List (α × β))
    (k : α) : alGet (alErase m k) k = none := by
  induction m with
  | nil => simp [alErase, alGet]
  | cons kv rest ih =>
    rw [alErase]
    by_cases h : k = kv.1
    · rw [if_pos h]
      exact ih
    · rw [if_neg h, alGet, if_neg h]
      exact ih

theorem alGet_alErase_ne {α β : Type} [DecidableEq α] (m : List (α × β))
    (k k' : α) (h : k' ≠ k) :
    alGet (alErase m k) k' = alGet m k' := by
  induction m with
  | nil => simp [alErase]
  | cons kv rest ih =>
    rw [alErase]
    by_cases hk : k = kv.1
    · rw [if_pos hk, ih, alGet, if_neg (by rw [← hk]; exact h)]
    · rw [if_neg hk, alGet, alGet]
      by_cases hk' : k' = kv.1
      · rw [if_pos hk', if_pos hk']
      · rw [if_neg hk', if_neg hk']
        exact ih

theorem alGet_mem {α β : Type} [DecidableEq α] {m : List (α × β)} {k : α}
    {v : β} (h : alGet m k = some v) : (k, v) ∈ m := by
  induction m with
  | nil => simp [alGet] at h
  | cons kv rest ih =>
    rw [alGet] at h
    by_cases hk : k = kv.1
    · rw [if_pos hk] at h
      have hv : kv.2 = v := Option.some.inj h
      rw [hk, ← hv]
      simp
    · rw [if_neg hk] at h
      exact List.mem_cons_of_mem _ (ih h)

theorem alGet_none_not_mem {α β : Type} [DecidableEq α] {m : List (α × β)}
    {k : α} (h : alGet m k = none) : ∀ v, (k, v) ∉ m := by
  induction m with
  | nil => simp
  | cons kv rest ih =>
    rw [alGet] at h
    by_cases hk : k = kv.1
    · rw [if_pos hk] at h
      cases h
    · rw [if_neg hk] at h
      intro v hv
      rcases List.mem_cons.1 hv with h' | h'
      · exact hk (by rw [← h'])
      · exact ih h v h'

theorem mem_alSet {α β : Type} [DecidableEq α] {m : List (α × β)} {k : α}
    {v : β} {kv : α × β} (h : kv ∈ alSet m k v) : kv = (k, v) ∨ kv ∈ m := by
  induction m with
  | nil => simpa [alSet] using h
  | cons kv0 rest ih =>
    rw [alSet] at h
    by_cases hk : k = kv0.1
    · rw [if_pos hk] at h
      rcases List.mem_cons.1 h with h' | h'
      · exact Or.inl h'
      · exact Or.inr (List.mem_cons_of_mem _ h')
    · rw [if_neg hk] at h
      rcases List.mem_cons.1 h with h' | h'
      · exact Or.inr (by rw [h']; simp)
      · rcases ih h' with h'' | h''
        · exact Or.inl h''
        · exact Or.inr (List.mem_cons_of_mem _ h'')

theorem mem_alErase {α β : Type} [DecidableEq α] {m : List (α × β)} {k : α}
    {kv : α × β} (h : kv ∈ alErase m k) : kv ∈ m := by
  induction m with
  | nil => simpa [alErase] using h
  | cons kv0 rest ih =>
    rw [alErase] at h
    by_cases hk : k = kv0.1
    · rw [if_pos hk] at h
      exact List.mem_cons_of_mem _ (ih h)
    · rw [if_neg hk] at h
      rcases List.mem_cons.1 h with h' | h'
      · rw [h']
        simp
      · exact List.mem_cons_of_mem _ (ih h')

theorem nodup_keys_alSet {α β : Type} [DecidableEq α] (m : List (α × β))
    (k : α) (v : β) (h : (m.map (·.1)).Nodup) :
    ((alSet m k v).map (·.1)).Nodup := by
  induction m with
  | nil => simp [alSet]
  | cons kv0 rest ih =>
    rw [alSet]
    simp only [List.map_cons, List.nodup_cons] at h
    by_cases hk : k = kv0.1
    · rw [if_pos hk]
      simp only [List.map_cons, List.nodup_cons]
      refine ⟨?_, h.2⟩
      rw [hk]
      exact h.1
    · rw [if_neg hk]
      simp only [List.map_cons, List.nodup_cons]
      refine ⟨?_, ih h.2⟩
      intro hc
      rcases List.mem_map.1 hc with ⟨kv', hkv', hfst⟩
      rcases mem_alSet hkv' with h' | h'
      · rw [h'] at hfst
        exact hk (by rw [← hfst])
      · exact h.1 (List.mem_map.2 ⟨kv', h', hfst⟩)

theorem nodup_keys_alErase {α β : Type} [DecidableEq α] (m : List (α × β))
    (k : α) (h : (m.map (·.1)).Nodup) :
    ((alErase m k).map (·.1)).Nodup := by
  induction m with
  | nil => simp [alErase]
  | cons kv0 rest ih =>
    rw [alErase]
    simp only [List.map_cons, List.nodup_cons] at h
    by_cases hk : k = kv0.1
    · rw [if_pos hk]
      exact ih h.2
    · rw [if_neg hk]
      simp only [List.map_cons, List.nodup_cons]
      refine ⟨?_, ih h.2⟩
      intro hc
      rcases List.mem_map.1 hc with ⟨kv', hkv', hfst⟩
      exact h.1 (List.mem_map.2 ⟨kv', mem_alErase hkv', hfst⟩)

theorem alGet_not_mem_keys {α β : Type} [DecidableEq α] {m : List (α × β)}
    {k : α} (h : k ∉ m.map (·.1)) : alGet m k = none := by
  induction m with
  | nil => rfl
  | cons kv0 rest ih =>
    simp only [List.map_cons, List.mem_cons] at h
    push_neg at h
    rw [alGet, if_neg h.1]
    exact ih h.2

/-- `alGet` over a fold of `alSet` inserts (the `allRecords` construction):
the overlaid entries win, other keys fall through, provided the overlaid
list has no duplicate keys. -/
theorem alGet_foldl_alSet {α β : Type} [DecidableEq α] (tl m : List (α × β))
    (k : α) (hnd : (tl.map (·.1)).Nodup) :
    alGet (tl.foldl (fun acc kv => alSet acc kv.1 kv.2) m) k =
      match alGet tl k with
      | some v => some v
      | none => alGet m k := by
  induction tl generalizing m with
  | nil => simp [alGet]
  | cons kv0 rest ih =>
    simp only [List.map_cons, List.nodup_cons] at hnd
    rw [List.foldl_cons, ih _ hnd.2, alGet]
    by_cases hk : k = kv0.1
    · rw [if_pos hk]
      have : alGet rest k = none := by
        apply alGet_not_mem_keys
        rw [hk]
        exact hnd.1
      rw [this, hk, alGet_alSet_self]
    · rw [if_neg hk]
      rcases h : alGet rest k with _ | v
      · rw [alGet_alSet_ne _ _ _ _ hk]
      · rfl

theorem mem_foldl_alSet {α β : Type} [DecidableEq α] {tl m : List (α × β)}
    {kv : α × β}
    (h : kv ∈ tl.foldl (fun acc kv => alSet acc kv.1 kv.2) m) :
    kv ∈ tl ∨ kv ∈ m := by
  induction tl generalizing m with
  | nil => exact Or.inr h
  | cons kv0 rest ih =>
    rw [List.foldl_cons] at h
    rcases ih h with h' | h'
    · exact Or.inl (List.mem_cons_of_mem _ h')
    · rcases mem_alSet h' with h'' | h''
      · rw [h'']
        exact Or.inl (by simp)
      · exact Or.inr h''

/-- `mergeStep` skips CHECKPOINT and unknown record types. -/
theorem mergeStep_skip (ms : MergeState) (rec : Record)
    (h : ¬(rec.type = RecordTypeInsert ∨ rec.type = RecordTypeUpdate ∨
      rec.type = RecordTypeDelete)) :
    mergeStep ms rec = .ok ms := by
  push_neg at h
  rw [mergeStep, if_neg (by tauto), if_neg h.2.2]

/-- `mergeStep` on a fresh-or-newer INSERT/UPDATE installs the record and
evicts any tombstone for the doc. -/
theorem mergeStep_fresh_write (ms : MergeState) (rec : Record) (d : List Nat)
    (ht : rec.type = RecordTypeInsert ∨ rec.type = RecordTypeUpdate)
    (hd : recDocID rec = some d)
    (hfresh : ∀ l, alGet ms.recordLSN d = some l → l < rec.lsn) :
    mergeStep ms rec = .ok
      { records := alSet ms.records d rec,
        tombstones := alErase ms.tombstones d,
        recordLSN := alSet ms.recordLSN d rec.lsn } := by
  rcases hdec : DecodeDocPayload rec.payload with e | ⟨d0, m0, em0⟩
  · rw [recDocID, if_pos ht, hdec] at hd
    cases hd
  · have hD : d0 = d := by
      rw [recDocID, if_pos ht, hdec] at hd
      exact Option.some.inj hd
    rw [hD] at hdec
    rcases hsl : alGet ms.recordLSN d with _ | l
    · rw [mergeStep, if_pos ht, hdec]
      dsimp only
      rw [hsl]
      simp
    · have := hfresh l hsl
      rw [mergeStep, if_pos ht, hdec]
      dsimp only
      rw [hsl]
      dsimp only
      rw [if_pos (by simpa using this)]

/-- `mergeStep` on a fresh-or-newer DELETE installs the tombstone and
evicts any live record for the doc. -/
theorem mergeStep_fresh_delete (ms : MergeState) (rec : Record) (d : List Nat)
    (ht : rec.type = RecordTypeDelete)
    (hd : recDocID rec = some d)
    (hfresh : ∀ l, alGet ms.recordLSN d = some l → l < rec.lsn) :
    mergeStep ms rec = .ok
      { records := alErase ms.records d,
        tombstones := alSet ms.tombstones d rec,
        recordLSN := alSet ms.recordLSN d rec.lsn } := by
  have hnw : ¬(rec.type = RecordTypeInsert ∨ rec.type = RecordTypeUpdate) := by
    rw [ht]
    decide
  rcases hdec : DecodeDeletePayload rec.payload with e | d0
  · rw [recDocID, if_neg hnw, if_pos ht, hdec] at hd
    cases hd
  · have hD : d0 = d := by
      rw [recDocID, if_neg hnw, if_pos ht, hdec] at hd
      exact Option.some.inj hd
    rw [hD] at hdec
    rcases hsl : alGet ms.recordLSN d with _ | l
    · rw [mergeStep, if_neg hnw, if_pos ht, hdec]
      dsimp only
      rw [hsl]
      simp
    · have := hfresh l hsl
      rw [mergeStep, if_neg hnw, if_pos ht, hdec]
      dsimp only
      rw [hsl]
      dsimp only
      rw [if_pos (by simpa using this)]

/-- `mergeStep` keeps the state unchanged on a stale record. -/
theorem mergeStep_stale (ms : MergeState) (rec : Record) (d : List Nat)
    (l : Nat)
    (ht : rec.type = RecordTypeInsert ∨ rec.type = RecordTypeUpdate ∨
      rec.type = RecordTypeDelete)
    (hd : recDocID rec = some d)
    (hsl : alGet ms.recordLSN d = some l) (hge : rec.lsn ≤ l) :
    mergeStep ms rec = .ok ms := by
  have hkeep : ¬ rec.lsn > l := by omega
  rcases ht with h | h | h
  · rcases hdec : DecodeDocPayload rec.payload with e | ⟨d0, m0, em0⟩
    · rw [recDocID, if_pos (Or.inl h), hdec] at hd
      cases hd
    · have hD : d0 = d := by
        rw [recDocID, if_pos (Or.inl h), hdec] at hd
        exact Option.some.inj hd
      rw [hD] at hdec
      rw [mergeStep, if_pos (Or.inl h), hdec]
      dsimp only
      rw [hsl]
      dsimp only
      rw [if_neg (by simpa using hkeep)]
  · rcases hdec : DecodeDocPayload rec.payload with e | ⟨d0, m0, em0⟩
    · rw [recDocID, if_pos (Or.inr h), hdec] at hd
      cases hd
    · have hD : d0 = d := by
        rw [recDocID, if_pos (Or.inr h), hdec] at hd
        exact Option.some.inj hd
      rw [hD] at hdec
      rw [mergeStep, if_pos (Or.inr h), hdec]
      dsimp only
      rw [hsl]
      dsimp only
      rw [if_neg (by simpa using hkeep)]
  · have hnw : ¬(rec.type = RecordTypeInsert ∨ rec.type = RecordTypeUpdate) := by
      rw [h]
      decide
    rcases hdec : DecodeDeletePayload rec.payload with e | d0
    · rw [recDocID, if_neg hnw, if_pos h, hdec] at hd
      cases hd
    · have hD : d0 = d := by
        rw [recDocID, if_neg hnw, if_pos h, hdec] at hd
        exact Option.some.inj hd
      rw [hD] at hdec
      rw [mergeStep, if_neg hnw, if_pos h, hdec]
      dsimp only
      rw [hsl]
      dsimp only
      rw [if_neg (by simpa using hkeep)]

/-- Folding the record steps over an `Except` accumulator distributes over
`bind` (an errored merge stays errored). -/
theorem foldl_mergeStep_error (seg : List Record) (e : WalError) :
    seg.foldl (fun (a : Except WalError MergeState) r =>
      a.bind fun s => mergeStep s r) (Except.error e) = .error e := by
  induction seg with
  | nil => rfl
  | cons r rest ih => simpa using ih

/-- `mergeRecords` equals the record-step fold over the concatenation of
the input segments. -/
theorem mergeRecords_join (segs : List (List Record)) :
    mergeRecords segs = segs.join.foldl
      (fun a r => a.bind fun s => mergeStep s r) (.ok initialMergeState) := by
  rw [mergeRecords, List.foldl_join]
  congr 1
  funext acc seg
  rcases acc with e | st
  · rw [foldl_mergeStep_error]
    rfl
  · rfl

/-- `applyRecord` preserves the absence of a doc from the index unless the
record is an INSERT/UPDATE of that very doc. -/
theorem applyRecord_index_none (rec : Record) (st : RecState) (D : List Nat)
    (h : ¬((rec.type = RecordTypeInsert ∨ rec.type = RecordTypeUpdate) ∧
      recDocID rec = some D))
    (hD : st.index D = none) : ((applyRecord rec st).1).index D = none := by
  by_cases hiu : rec.type = RecordTypeInsert ∨ rec.type = RecordTypeUpdate
  · rcases hdec : DecodeDocPayload rec.payload with e | ⟨d, m, em⟩
    · rw [applyRecord, if_pos hiu, hdec]
      exact hD
    · have hDd : ¬(D = d) := by
        intro hc
        exact h ⟨hiu, by rw [recDocID, if_pos hiu, hdec, ← hc]⟩
      rw [applyRecord, if_pos hiu, hdec]
      dsimp only
      rcases hsl : st.docLSN d with _ | l
      · dsimp only
        simp only [updFun]
        rw [if_neg hDd]
        exact hD
      · dsimp only
        by_cases hst : l ≥ rec.lsn
        · rw [if_pos hst]
          exact hD
        · rw [if_neg hst]
          dsimp only
          simp only [updFun]
          rw [if_neg hDd]
          exact hD
  · by_cases hdel : rec.type = RecordTypeDelete
    · rcases hdec : DecodeDeletePayload rec.payload with e | d
      · rw [applyRecord, if_neg hiu, if_pos hdel, hdec]
        exact hD
      · rw [applyRecord, if_neg hiu, if_pos hdel, hdec]
        dsimp only
        rcases hsl : st.docLSN d with _ | l
        · dsimp only
          simp only [updFun]
          by_cases hdd : D = d
          · rw [if_pos hdd]
          · rw [if_neg hdd]
            exact hD
        · dsimp only
          by_cases hst : l ≥ rec.lsn
          · rw [if_pos hst]
            exact hD
          · rw [if_neg hst]
            dsimp only
            simp only [updFun]
            by_cases hdd : D = d
            · rw [if_pos hdd]
            · rw [if_neg hdd]
              exact hD
    · rw [applyRecord, if_neg hiu, if_neg hdel]
      exact hD

/-- Replaying records none of which is an INSERT/UPDATE of doc `D` leaves
`D` absent from the index. -/
theorem replay_index_none (l : List Record) (st : RecState) (D : List Nat)
    (h : ∀ r ∈ l, ¬((r.type = RecordTypeInsert ∨ r.type = RecordTypeUpdate) ∧
      recDocID r = some D))
    (hD : st.index D = none) : (replay l st).index D = none := by
  induction l generalizing st with
  | nil => exact hD
  | cons r rest ih =>
    rw [show replay (r :: rest) st = replay rest ((applyRecord r st).1) from rfl]
    exact ih ((applyRecord r st).1)
      (fun r' hr' => h r' (List.mem_cons_of_mem _ hr'))
      (applyRecord_index_none r st D (h r (by simp)) hD)

/-- The running invariant of `Compactor.mergeRecords`, for an arbitrary
fixed doc id `D`: the fold succeeds on decodable inputs, the three maps are
key-coherent with no duplicate keys, and the entry for `D` reflects a
maximal-LSN record addressing `D` among those seen so far. -/
theorem merge_invariant (D : List Nat) (recs : List Record) :
    (∀ r ∈ recs,
      (r.type = RecordTypeInsert ∨ r.type = RecordTypeUpdate ∨
        r.type = RecordTypeDelete) → ∃ d, recDocID r = some d) →
    ∃ ms : MergeState, recs.foldl (fun (a : Except WalError MergeState) r =>
        a.bind fun s => mergeStep s r) (.ok initialMergeState) = .ok ms ∧
      (∀ kv ∈ ms.records, recDocID kv.2 = some kv.1 ∧
        (kv.2.type = RecordTypeInsert ∨ kv.2.type = RecordTypeUpdate)) ∧
      (∀ kv ∈ ms.tombstones, recDocID kv.2 = some kv.1 ∧
        kv.2.type = RecordTypeDelete) ∧
      (ms.records.map (·.1)).Nodup ∧
      (ms.tombstones.map (·.1)).Nodup ∧
      (((∀ r ∈ recs, ¬ addressesDoc D r) ∧
          alGet ms.recordLSN D = none ∧ alGet ms.records D = none ∧
          alGet ms.tombstones D = none) ∨
        (∃ rk, rk ∈ recs ∧ addressesDoc D rk ∧
          (∀ r ∈ recs, addressesDoc D r → r.lsn ≤ rk.lsn) ∧
          alGet ms.recordLSN D = some rk.lsn ∧
          ((rk.type = RecordTypeDelete ∧ alGet ms.tombstones D = some rk ∧
              alGet ms.records D = none) ∨
            ((rk.type = RecordTypeInsert ∨ rk.type = RecordTypeUpdate) ∧
              alGet ms.records D = some rk ∧
              alGet ms.tombstones D = none)))) := by
  induction recs using List.reverseRecOn with
  | nil =>
    intro _
    exact ⟨initialMergeState, rfl, by simp [initialMergeState],
      by simp [initialMergeState], by simp [initialMergeState],
      by simp [initialMergeState], Or.inl ⟨by simp, rfl, rfl, rfl⟩⟩
  | append_singleton xs x ih =>
    intro hdec
    obtain ⟨ms, hfold, hrec, htomb, hndr, hndt, hDst⟩ :=
      ih (fun r hr ht => hdec r (by simp [hr]) ht)
    have hstep : (xs ++ [x]).foldl (fun (a : Except WalError MergeState) r =>
        a.bind fun s => mergeStep s r) (.ok initialMergeState) =
          mergeStep ms x := by
      rw [List.foldl_append, hfold]
      rfl
    by_cases hty : x.type = RecordTypeInsert ∨ x.type = RecordTypeUpdate ∨
        x.type = RecordTypeDelete
    · obtain ⟨d, hd⟩ := hdec x (by simp) hty
      by_cases hfresh : ∀ l, alGet ms.recordLSN d = some l → l < x.lsn
      · by_cases hdD : d = D
        · subst hdD
          have haddrx : addressesDoc d x := ⟨hty, hd⟩
          by_cases hiu : x.type = RecordTypeInsert ∨ x.type = RecordTypeUpdate
          · refine ⟨⟨alSet ms.records d x, alErase ms.tombstones d,
              alSet ms.recordLSN d x.lsn⟩, ?_, ?_, ?_, ?_, ?_, ?_⟩
            · rw [hstep]
              exact mergeStep_fresh_write ms x d hiu hd hfresh
            · intro kv hkv
              rcases mem_alSet hkv with h | h
              · rw [h]
                exact ⟨hd, hiu⟩
              · exact hrec kv h
            · intro kv hkv
              exact htomb kv (mem_alErase hkv)
            · exact nodup_keys_alSet _ _ _ hndr
            · exact nodup_keys_alErase _ _ hndt
            · refine Or.inr ⟨x, by simp, haddrx, ?_, alGet_alSet_self _ _ _,
                Or.inr ⟨hiu, alGet_alSet_self _ _ _, alGet_alErase_self _ _⟩⟩
              intro r hr ha
              rcases List.mem_append.1 hr with h | h
              · rcases hDst with ⟨hnone, h1, h2, h3⟩ |
                  ⟨rk, hmem, haddr, hbound, h1, hkind⟩
                · exact absurd ha (hnone r h)
                · have hb := hbound r h ha
                  have hl := hfresh rk.lsn h1
                  omega
              · rw [List.mem_singleton.1 h]
          · have hdel : x.type = RecordTypeDelete := by
              rcases hty with h | h | h
              · exact absurd (Or.inl h) hiu
              · exact absurd (Or.inr h) hiu
              · exact h
            refine ⟨⟨alErase ms.records d, alSet ms.tombstones d x,
              alSet ms.recordLSN d x.lsn⟩, ?_, ?_, ?_, ?_, ?_, ?_⟩
            · rw [hstep]
              exact mergeStep_fresh_delete ms x d hdel hd hfresh
            · intro kv hkv
              exact hrec kv (mem_alErase hkv)
            · intro kv hkv
              rcases mem_alSet hkv with h | h
              · rw [h]
                exact ⟨hd, hdel⟩
              · exact htomb kv h
            · exact nodup_keys_alErase _ _ hndr
            · exact nodup_keys_alSet _ _ _ hndt
            · refine Or.inr ⟨x, by simp, haddrx, ?_, alGet_alSet_self _ _ _,
                Or.inl ⟨hdel, alGet_alSet_self _ _ _, alGet_alErase_self _ _⟩⟩
              intro r hr ha
              rcases List.mem_append.1 hr with h | h
              · rcases hDst with ⟨hnone, h1, h2, h3⟩ |
                  ⟨rk, hmem, haddr, hbound, h1, hkind⟩
                · exact absurd ha (hnone r h)
                · have hb := hbound r h ha
                  have hl := hfresh rk.lsn h1
                  omega
              · rw [List.mem_singleton.1 h]
        · have hne : D ≠ d := fun h => hdD h.symm
          have hnx : ¬ addressesDoc D x :=
            fun h => hdD (Option.some.inj (hd.symm.trans h.2))
          by_cases hiu : x.type = RecordTypeInsert ∨ x.type = RecordTypeUpdate
          · refine ⟨⟨alSet ms.records d x, alErase ms.tombstones d,
              alSet ms.recordLSN d x.lsn⟩, ?_, ?_, ?_, ?_, ?_, ?_⟩
            · rw [hstep]
              exact mergeStep_fresh_write ms x d hiu hd hfresh
            · intro kv hkv
              rcases mem_alSet hkv with h | h
              · rw [h]
                exact ⟨hd, hiu⟩
              · exact hrec kv h
            · intro kv hkv
              exact htomb kv (mem_alErase hkv)
            · exact nodup_keys_alSet _ _ _ hndr
            · exact nodup_keys_alErase _ _ hndt
            · rcases hDst with ⟨hnone, h1, h2, h3⟩ |
                ⟨rk, hmem, haddr, hbound, h1, hkind⟩
              · refine Or.inl ⟨?_, (alGet_alSet_ne _ _ _ _ hne).trans h1,
                  (alGet_alSet_ne _ _ _ _ hne).trans h2,
                  (alGet_alErase_ne _ _ _ hne).trans h3⟩
                intro r hr
                rcases List.mem_append.1 hr with h | h
                · exact hnone r h
                · rw [List.mem_singleton.1 h]
                  exact hnx
              · refine Or.inr ⟨rk, by simp [hmem], haddr, ?_,
                  (alGet_alSet_ne _ _ _ _ hne).trans h1, ?_⟩
                · intro r hr ha
                  rcases List.mem_append.1 hr with h | h
                  · exact hbound r h ha
                  · rw [List.mem_singleton.1 h] at ha
                    exact absurd ha hnx
                · rcases hkind with ⟨ht, ha, hb⟩ | ⟨ht, ha, hb⟩
                  · exact Or.inl ⟨ht, (alGet_alErase_ne _ _ _ hne).trans ha,
                      (alGet_alSet_ne _ _ _ _ hne).trans hb⟩
                  · exact Or.inr ⟨ht, (alGet_alSet_ne _ _ _ _ hne).trans ha,
                      (alGet_alErase_ne _ _ _ hne).trans hb⟩
          · have hdel : x.type = RecordTypeDelete := by
              rcases hty with h | h | h
              · exact absurd (Or.inl h) hiu
              · exact absurd (Or.inr h) hiu
              · exact h
            refine ⟨⟨alErase ms.records d, alSet ms.tombstones d x,
              alSet ms.recordLSN d x.lsn⟩, ?_, ?_, ?_, ?_, ?_, ?_⟩
            · rw [hstep]
              exact mergeStep_fresh_delete ms x d hdel hd hfresh
            · intro kv hkv
              exact hrec kv (mem_alErase hkv)
            · intro kv hkv
              rcases mem_alSet hkv with h | h
              · rw [h]
                exact ⟨hd, hdel⟩
              · exact htomb kv h
            · exact nodup_keys_alErase _ _ hndr
            · exact nodup_keys_alSet _ _ _ hndt
            · rcases hDst with ⟨hnone, h1, h2, h3⟩ |
                ⟨rk, hmem, haddr, hbound, h1, hkind⟩
              · refine Or.inl ⟨?_, (alGet_alSet_ne _ _ _ _ hne).trans h1,
                  (alGet_alErase_ne _ _ _ hne).trans h2,
                  (alGet_alSet_ne _ _ _ _ hne).trans h3⟩
                intro r hr
                rcases List.mem_append.1 hr with h | h
                · exact hnone r h
                · rw [List.mem_singleton.1 h]
                  exact hnx
              · refine Or.inr ⟨rk, by simp [hmem], haddr, ?_,
                  (alGet_alSet_ne _ _ _ _ hne).trans h1, ?_⟩
                · intro r hr ha
                  rcases List.mem_append.1 hr with h | h
                  · exact hbound r h ha
                  · rw [List.mem_singleton.1 h] at ha
                    exact absurd ha hnx
                · rcases hkind with ⟨ht, ha, hb⟩ | ⟨ht, ha, hb⟩
                  · exact Or.inl ⟨ht, (alGet_alSet_ne _ _ _ _ hne).trans ha,
                      (alGet_alErase_ne _ _ _ hne).trans hb⟩
                  · exact Or.inr ⟨ht, (alGet_alErase_ne _ _ _ hne).trans ha,
                      (alGet_alSet_ne _ _ _ _ hne).trans hb⟩
      · push_neg at hfresh
        obtain ⟨l, hsl, hge⟩ := hfresh
        have hms : mergeStep ms x = .ok ms :=
          mergeStep_stale ms x d l hty hd hsl hge
        refine ⟨ms, by rw [hstep, hms], hrec, htomb, hndr, hndt, ?_⟩
        by_cases hdD : d = D
        · subst hdD
          rcases hDst with ⟨hnone, h1, h2, h3⟩ |
            ⟨rk, hmem, haddr, hbound, h1, hkind⟩
          · rw [h1] at hsl
            cases hsl
          · refine Or.inr ⟨rk, by simp [hmem], haddr, ?_, h1, hkind⟩
            intro r hr ha
            rcases List.mem_append.1 hr with h | h
            · exact hbound r h ha
            · rw [List.mem_singleton.1 h]
              rw [h1] at hsl
              have hrkl : rk.lsn = l := Option.some.inj hsl
              omega
        · have hnx : ¬ addressesDoc D x :=
            fun h => hdD (Option.some.inj (hd.symm.trans h.2))
          rcases hDst with ⟨hnone, h1, h2, h3⟩ |
            ⟨rk, hmem, haddr, hbound, h1, hkind⟩
          · refine Or.inl ⟨?_, h1, h2, h3⟩
            intro r hr
            rcases List.mem_append.1 hr with h | h
            · exact hnone r h
            · rw [List.mem_singleton.1 h]
              exact hnx
          · refine Or.inr ⟨rk, by simp [hmem], haddr, ?_, h1, hkind⟩
            intro r hr ha
            rcases List.mem_append.1 hr with h | h
            · exact hbound r h ha
            · rw [List.mem_singleton.1 h] at ha
              exact absurd ha hnx
    · have hnx : ¬ addressesDoc D x := fun h => hty h.1
      refine ⟨ms, by rw [hstep, mergeStep_skip ms x hty], hrec, htomb,
        hndr, hndt, ?_⟩
      rcases hDst with ⟨hnone, h1, h2, h3⟩ |
        ⟨rk, hmem, haddr, hbound, h1, hkind⟩
      · refine Or.inl ⟨?_, h1, h2, h3⟩
        intro r hr
        rcases List.mem_append.1 hr with h | h
        · exact hnone r h
        · rw [List.mem_singleton.1 h]
          exact hnx
      · refine Or.inr ⟨rk, by simp [hmem], haddr, ?_, h1, hkind⟩
        intro r hr ha
        rcases List.mem_append.1 hr with h | h
        · exact hbound r h ha
        · rw [List.mem_singleton.1 h] at ha
          exact absurd ha hnx

/-- C2: compaction preserves tombstones.  For every set of input segments
whose INSERT/UPDATE/DELETE records have decodable payloads, if the record
with the strictly highest LSN among those addressing doc id `D` is a DELETE
record `rd`, then `compactSegments`'s merge succeeds, the record list
written to the compacted output segment contains `rd`, and a fresh recovery
replay that reads only the compacted output yields an index in which `D`
is absent. -/
theorem C2_compaction_preserves_tombstones (segs : List (List Record))
    (D : List Nat) (rd : Record)
    (hdec : ∀ r ∈ segs.join,
      (r.type = RecordTypeInsert ∨ r.type = RecordTypeUpdate ∨
        r.type = RecordTypeDelete) → ∃ d, recDocID r = some d)
    (hrd : rd ∈ segs.join) (hty : rd.type = RecordTypeDelete)
    (hdoc : recDocID rd = some D)
    (hmax : ∀ r ∈ segs.join, addressesDoc D r → r ≠ rd → r.lsn < rd.lsn) :
    ∃ out, compactOutput segs = .ok out ∧ rd ∈ out ∧
      (replay out initialRecState).index D = none := by
  obtain ⟨ms, hfold, hrec, htomb, hndr, hndt, hDst⟩ :=
    merge_invariant D segs.join hdec
  have hmr : mergeRecords segs = .ok ms := by
    rw [mergeRecords_join]
    exact hfold
  have haddrd : addressesDoc D rd := ⟨Or.inr (Or.inr hty), hdoc⟩
  rcases hDst with ⟨hnone, h1, h2, h3⟩ | ⟨rk, hmem, haddr, hbound, h1, hkind⟩
  · exact absurd haddrd (hnone rd hrd)
  · have hrk : rk = rd := by
      by_contra hne
      have hlt := hmax rk hmem haddr hne
      have hle := hbound rd hrd haddrd
      omega
    rw [hrk] at hkind
    rcases hkind with ⟨hdel2, hts, hrcs⟩ | ⟨hiu2, hx1, hx2⟩
    · set allR := ms.tombstones.foldl (fun m kv => alSet m kv.1 kv.2)
        ms.records with hallR
      refine ⟨(allR.map (·.2)).mergeSort (fun a b => a.lsn ≤ b.lsn),
        ?_, ?_, ?_⟩
      · rw [compactOutput, hmr]
        rfl
      · have hgetAll : alGet allR D = some rd := by
          rw [hallR, alGet_foldl_alSet _ _ _ hndt, hts]
        have hmemMap : rd ∈ allR.map (·.2) :=
          List.mem_map_of_mem _ (alGet_mem hgetAll)
        exact ((List.mergeSort_perm _ _).mem_iff).2 hmemMap
      · apply replay_index_none
        · intro r hr hcon
          obtain ⟨hiur, hdocr⟩ := hcon
          have hrmem : r ∈ allR.map (·.2) :=
            ((List.mergeSort_perm _ _).mem_iff).1 hr
          obtain ⟨kv, hkv, hkv2⟩ := List.mem_map.1 hrmem
          rcases kv with ⟨k1, k2⟩
          rw [hallR] at hkv
          rcases mem_foldl_alSet hkv with hT | hR
          · obtain ⟨hdk, hdtype⟩ := htomb _ hT
            rw [hkv2] at hdtype
            rcases hiur with h | h
            · exact absurd (hdtype.symm.trans h) (by decide)
            · exact absurd (hdtype.symm.trans h) (by decide)
          · obtain ⟨hdk, hdiu⟩ := hrec _ hR
            rw [hkv2] at hdk
            rw [hdocr] at hdk
            have hk1 : k1 = D := (Option.some.inj hdk).symm
            have hmemD : (D, r) ∈ ms.records := by
              rw [← hk1, ← hkv2]
              exact hR
            exact alGet_none_not_mem hrcs r hmemD
        · rfl
    · rw [hty] at hiu2
      rcases hiu2 with h | h
      · exact absurd h (by decide)
      · exact absurd h (by decide)

set_option maxRecDepth 1000000 in
/-- Witness for C2: insert of doc `[97]` at LSN 1 in the first input
segment, delete at LSN 2 in the second; compaction emits the tombstone and
a fresh replay of the compacted output leaves the doc absent. -/
theorem C2_compaction_preserves_tombstones_witness :
    ∃ out, compactOutput c2segs = .ok out ∧ c2del ∈ out ∧
      (replay out initialRecState).index [97] = none :=
  C2_compaction_preserves_tombstones c2segs [97] c2del
    (by
      intro r hr ht
      refine ⟨[97], ?_⟩
      have h : r = c2ins ∨ r = c2del := by simpa [c2segs] using hr
      rcases h with h | h <;> rw [h] <;> decide)
    (by simp [c2segs])
    (by decide)
    (by decide)
    (by
      intro r hr ha hne
      have h : r = c2ins ∨ r = c2del := by simpa [c2segs] using hr
      rcases h with h | h
      · rw [h]
        decide
      · exact absurd h hne)

/-! ## C3 — open-time tail repair -/

/-- The scanner's validator accepts the encoding of a well-formed record at
the front of any byte stream, consuming exactly its encoded length. -/
theorem parseValidRecord_encode (r : Record) (rest : List Nat)
    (hwf : wfRecord r) :
    parseValidRecord (r.Encode ++ rest) = some r.Encode.length := by
  obtain ⟨hm, hty, hfl, hres, hlsn, hpl, hple, hhc, hpc, hb⟩ := hwf
  have hlen := encode_length r
  have hplen : r.payload.length < 2 ^ 32 := by
    rw [MaxPayloadSize] at hple
    omega
  have hlenl : (r.Encode ++ rest).length =
      28 + r.payload.length + rest.length := by
    simp [hlen]
  have hdata : r.Encode ++ rest = leBytes 4 r.magic ++ (r.type % 256 ::
      (r.flags % 256 :: (leBytes 2 r.reserved ++ (leBytes 8 r.lsn ++
      (leBytes 4 r.payloadLen ++ (leBytes 4 r.headerCRC ++
      (r.payload ++ (leBytes 4 r.payloadCRC ++ rest)))))))) := by
    simp [Record.Encode, Record.headerBytes, List.append_assoc]
  have d4 : (r.Encode ++ rest).drop 4 = r.type % 256 ::
      (r.flags % 256 :: (leBytes 2 r.reserved ++ (leBytes 8 r.lsn ++
      (leBytes 4 r.payloadLen ++ (leBytes 4 r.headerCRC ++
      (r.payload ++ (leBytes 4 r.payloadCRC ++ rest))))))) := by
    rw [hdata, List.drop_left' (leBytes_length 4 r.magic)]
  have d6 : (r.Encode ++ rest).drop 6 = leBytes 2 r.reserved ++
      (leBytes 8 r.lsn ++ (leBytes 4 r.payloadLen ++ (leBytes 4 r.headerCRC ++
      (r.payload ++ (leBytes 4 r.payloadCRC ++ rest))))) := by
    rw [show (6 : Nat) = 4 + 2 from rfl, ← List.drop_drop, d4]
    rfl
  have d8 : (r.Encode ++ rest).drop 8 = leBytes 8 r.lsn ++
      (leBytes 4 r.payloadLen ++ (leBytes 4 r.headerCRC ++
      (r.payload ++ (leBytes 4 r.payloadCRC ++ rest)))) := by
    rw [show (8 : Nat) = 6 + 2 from rfl, ← List.drop_drop, d6,
      List.drop_left' (leBytes_length 2 r.reserved)]
  have d16 : (r.Encode ++ rest).drop 16 = leBytes 4 r.payloadLen ++
      (leBytes 4 r.headerCRC ++ (r.payload ++
      (leBytes 4 r.payloadCRC ++ rest))) := by
    rw [show (16 : Nat) = 8 + 8 from rfl, ← List.drop_drop, d8,
      List.drop_left' (leBytes_length 8 r.lsn)]
  have d20 : (r.Encode ++ rest).drop 20 = leBytes 4 r.headerCRC ++
      (r.payload ++ (leBytes 4 r.payloadCRC ++ rest)) := by
    rw [show (20 : Nat) = 16 + 4 from rfl, ← List.drop_drop, d16,
      List.drop_left' (leBytes_length 4 r.payloadLen)]
  have d24 : (r.Encode ++ rest).drop 24 = r.payload ++
      (leBytes 4 r.payloadCRC ++ rest) := by
    rw [show (24 : Nat) = 20 + 4 from rfl, ← List.drop_drop, d20,
      List.drop_left' (leBytes_length 4 r.headerCRC)]
  have d24n : (r.Encode ++ rest).drop (24 + r.payloadLen) =
      leBytes 4 r.payloadCRC ++ rest := by
    rw [← List.drop_drop, d24, List.drop_left' hpl.symm]
  have e1 : readLE 4 (r.Encode ++ rest) = r.magic := by
    rw [hdata, readLE_leBytes_self]
    rw [hm, MagicBytes]; norm_num
  have e6 : readLE 4 ((r.Encode ++ rest).drop 16) = r.payloadLen := by
    rw [d16, readLE_leBytes_self]
    · rw [hpl]; exact lt_of_lt_of_le hplen (by norm_num)
  have e7 : readLE 4 ((r.Encode ++ rest).drop 20) = r.headerCRC := by
    rw [d20, readLE_leBytes_self]
    · rw [hhc]; exact lt_of_lt_of_le (calculateHeaderCRC_lt r) (by norm_num)
  have t20 : (r.Encode ++ rest).take 20 = r.headerBytes := by
    rw [List.take_append_of_le_length (by omega), encode_take_20]
  have e8 : ((r.Encode ++ rest).drop 24).take r.payloadLen = r.payload := by
    rw [d24, List.take_left' hpl.symm]
  have e9 : readLE 4 ((r.Encode ++ rest).drop (24 + r.payloadLen)) =
      r.payloadCRC := by
    rw [d24n, readLE_leBytes_self]
    · rw [hpc]; exact lt_of_lt_of_le (crc32_lt hb) (by norm_num)
  rw [parseValidRecord]
  simp only [HeaderSize]
  rw [if_neg (by omega)]
  rw [e1, if_neg (by rw [hm]; simp)]
  rw [e6, if_neg (by omega)]
  rw [e7, t20, if_neg (by
    rw [hhc, Record.calculateHeaderCRC]
    simp)]
  rw [if_neg (by omega)]
  rw [e8, e9, if_neg (by rw [hpc]; simp)]
  have hk : 24 + r.payloadLen + 4 = r.Encode.length := by omega
  rw [hk]

/-- A successful validator step consumes a positive number of bytes, at
most the length of the stream. -/
theorem parseValidRecord_pos {l : List Nat} {k : Nat}
    (h : parseValidRecord l = some k) : 0 < k ∧ k ≤ l.length := by
  rw [parseValidRecord] at h
  simp only [HeaderSize] at h
  split_ifs at h with h1 h2 h3 h4 h5 h6
  have hk := Option.some.inj h
  omega

/-- `scanFrom` does not depend on the fuel once the fuel covers the length
of the stream. -/
theorem scanFrom_congr (f1 : Nat) :
    ∀ (f2 : Nat) (l : List Nat), l.length ≤ f1 → l.length ≤ f2 →
      scanFrom f1 l = scanFrom f2 l := by
  induction f1 with
  | zero =>
    intro f2 l h1 h2
    have hl : l = [] := List.eq_nil_of_length_eq_zero (by omega)
    subst hl
    cases f2
    · rfl
    · rfl
  | succ f ih =>
    intro f2 l h1 h2
    cases f2 with
    | zero =>
      have hl : l = [] := List.eq_nil_of_length_eq_zero (by omega)
      subst hl
      rfl
    | succ g =>
      rw [scanFrom, scanFrom]
      cases hp : parseValidRecord l with
      | none => rfl
      | some k =>
        obtain ⟨hk0, hkle⟩ := parseValidRecord_pos hp
        have hd : (l.drop k).length = l.length - k := by simp
        dsimp only
        rw [ih g (l.drop k) (by omega) (by omega)]

/-- `scanFrom` on a sequence of well-formed record encodings followed by
bytes the validator rejects stops exactly at the end of the records. -/
theorem scanFrom_encodeAll (rs : List Record) (g : List Nat) :
    (∀ r ∈ rs, wfRecord r) → parseValidRecord g = none →
    ∀ fuel, (encodeAll rs ++ g).length ≤ fuel →
      scanFrom fuel (encodeAll rs ++ g) = (encodeAll rs).length := by
  induction rs with
  | nil =>
    intro _ hg fuel _
    simp only [encodeAll, List.map_nil, List.flatten_nil, List.nil_append,
      List.length_nil]
    cases fuel
    · rfl
    · rw [scanFrom, hg]
  | cons r rs ih =>
    intro hwf hg fuel hf
    have henc : encodeAll (r :: rs) = r.Encode ++ encodeAll rs := by
      simp [encodeAll]
    rw [henc, List.append_assoc] at hf ⊢
    have hlen := encode_length r
    cases fuel with
    | zero =>
      simp only [List.length_append] at hf
      omega
    | succ f =>
      rw [scanFrom, parseValidRecord_encode r _ (hwf r (by simp))]
      dsimp only
      rw [List.drop_left]
      have hfr : (encodeAll rs ++ g).length ≤ f := by
        simp only [List.length_append] at hf ⊢
        omega
      rw [ih (fun x hx => hwf x (by simp [hx])) hg f hfr]
      simp

/-- The tail scan of `findLastValidOffset` on a well-formed record sequence
followed by rejected garbage lands exactly at the end of the records. -/
theorem findLastValidOffset_append (rs : List Record) (g : List Nat)
    (hwf : ∀ r ∈ rs, wfRecord r) (hg : parseValidRecord g = none) :
    findLastValidOffset (encodeAll rs ++ g) = (encodeAll rs).length := by
  rw [findLastValidOffset]
  exact scanFrom_encodeAll rs g hwf hg _ (le_refl _)

/-- C3 (amended): open-time tail repair.  For every segment file consisting
of a sequence of fully valid records followed by nonempty trailing garbage
whose leading bytes the record validator rejects (they do not themselves
form a fully valid record), reopening the WAL writer on that file truncates
it to the byte offset immediately after the last fully valid record, so the
post-open file contents equal the pre-garbage contents. -/
theorem C3_tail_repair (rs : List Record) (g : List Nat)
    (hwf : ∀ r ∈ rs, wfRecord r) (hg : parseValidRecord g = none)
    (hne : g ≠ []) :
    openSegmentContents (encodeAll rs ++ g) = encodeAll rs := by
  have hflvo := findLastValidOffset_append rs g hwf hg
  have hg1 : 0 < g.length := List.length_pos.2 hne
  have hlen : (encodeAll rs ++ g).length =
      (encodeAll rs).length + g.length := by simp
  rw [openSegmentContents, hflvo, if_pos ⟨by omega, by omega⟩,
    List.take_left]

set_option maxRecDepth 1000000 in
/-- C3 (counterexample to the unrestricted claim): trailing garbage that is
itself a fully valid record encoding defeats tail repair.  The file holding
the single fully valid record `c3rec` followed by garbage bytes that happen
to equal another copy of `c3rec.Encode` is NOT truncated back to the
pre-garbage contents: the scanner accepts the garbage and keeps it. -/
theorem C3_counterexample :
    wfRecord c3rec ∧
    DecodeRecord c3rec.Encode = .ok c3rec ∧
    openSegmentContents (encodeAll [c3rec] ++ c3rec.Encode) =
      encodeAll [c3rec] ++ c3rec.Encode ∧
    encodeAll [c3rec] ++ c3rec.Encode ≠ encodeAll [c3rec] := by
  refine ⟨by decide, by decide, by decide, by decide⟩

set_option maxRecDepth 1000000 in
/-- Witness for C3: one valid CHECKPOINT record followed by a single
garbage byte; reopening truncates back to the record's encoding. -/
theorem C3_tail_repair_witness :
    openSegmentContents (encodeAll [c3rec] ++ [0]) = encodeAll [c3rec] :=
  C3_tail_repair [c3rec] [0]
    (by
      intro r hr
      rw [List.mem_singleton.1 hr]
      decide)
    (by decide)
    (by decide)

/-! ## C8 — CRC sensitivity to single-bit mutations -/

theorem xor_xor_cancel (a b c : Nat) : (a ^^^ c) ^^^ (b ^^^ c) = a ^^^ b := by
  rw [Nat.xor_assoc, Nat.xor_comm b c, ← Nat.xor_assoc c c b, Nat.xor_self,
    Nat.zero_xor]

theorem two_pow_xor_ne (b i : Nat) : b ^^^ 2 ^ i ≠ b := by
  intro h
  have h2 : b ^^^ (b ^^^ 2 ^ i) = b ^^^ b := by rw [h]
  rw [← Nat.xor_assoc, Nat.xor_self, Nat.zero_xor] at h2
  exact absurd h2 (pow_pos (by norm_num : (0 : Nat) < 2) i).ne'

theorem xor_mod_two (a b : Nat) :
    (a ^^^ b) % 2 = if a % 2 = b % 2 then 0 else 1 := by
  have h := Nat.testBit_xor a b 0
  rw [Nat.testBit_zero, Nat.testBit_zero, Nat.testBit_zero] at h
  rcases Nat.mod_two_eq_zero_or_one a with ha | ha <;>
    rcases Nat.mod_two_eq_zero_or_one b with hb | hb <;>
      rcases Nat.mod_two_eq_zero_or_one (a ^^^ b) with hx | hx <;>
        simp [ha, hb, hx] at h ⊢

/-- The CRC bit step is linear over bitwise xor. -/
theorem crcBit_xor (a b : Nat) : crcBit (a ^^^ b) = crcBit a ^^^ crcBit b := by
  have hs : (a ^^^ b) >>> 1 = a >>> 1 ^^^ b >>> 1 := by
    apply Nat.eq_of_testBit_eq
    intro j
    simp [Nat.testBit_shiftRight, Nat.testBit_xor]
  simp only [crcBit]
  rw [hs, xor_mod_two]
  rcases Nat.mod_two_eq_zero_or_one a with ha | ha <;>
    rcases Nat.mod_two_eq_zero_or_one b with hb | hb
  · rw [ha, hb]
    simp
  · rw [ha, hb]
    simp [Nat.xor_assoc]
  · rw [ha, hb]
    simp only [if_neg (by omega : ¬ (1 : Nat) = 0), Nat.mul_one,
      Nat.mul_zero, Nat.xor_zero]
    rw [Nat.xor_assoc, Nat.xor_assoc, Nat.xor_comm (b >>> 1) crcPoly]
  · rw [ha, hb]
    rw [if_pos rfl, Nat.mul_zero, Nat.mul_one, Nat.xor_zero, xor_xor_cancel]

theorem crcBit_ne_zero {u : Nat} (h0 : u ≠ 0) (hlt : u < 2 ^ 32) :
    crcBit u ≠ 0 := by
  rw [crcBit]
  have hs : u >>> 1 = u / 2 := by
    rw [Nat.shiftRight_eq_div_pow]
  rcases Nat.mod_two_eq_zero_or_one u with h | h
  · rw [h, Nat.mul_zero, Nat.xor_zero, hs]
    omega
  · rw [h, Nat.mul_one]
    intro hc
    have heq : u >>> 1 = crcPoly := Nat.xor_eq_zero.1 hc
    rw [hs, crcPoly] at heq
    omega

theorem crcBit_iter_xor (n a b : Nat) :
    crcBit^[n] (a ^^^ b) = crcBit^[n] a ^^^ crcBit^[n] b := by
  induction n with
  | zero => rfl
  | succ n ih =>
    rw [Function.iterate_succ_apply', Function.iterate_succ_apply',
      Function.iterate_succ_apply', ih, crcBit_xor]

theorem crcBit_iter_lt (n : Nat) {u : Nat} (h : u < 2 ^ 32) :
    crcBit^[n] u < 2 ^ 32 := by
  induction n with
  | zero => exact h
  | succ n ih =>
    rw [Function.iterate_succ_apply']
    exact crcBit_lt ih

theorem crcBit_iter_ne_zero (n : Nat) {u : Nat} (h0 : u ≠ 0)
    (hlt : u < 2 ^ 32) : crcBit^[n] u ≠ 0 := by
  induction n with
  | zero => exact h0
  | succ n ih =>
    rw [Function.iterate_succ_apply']
    exact crcBit_ne_zero ih (crcBit_iter_lt n hlt)

/-- Two byte steps from the same register with different bytes differ by
the iterated bit step of the byte difference. -/
theorem crcByte_diff (x b b' : Nat) :
    crcByte x b ^^^ crcByte x b' = crcBit^[8] (b ^^^ b') := by
  rw [crcByte, crcByte, ← crcBit_iter_xor, Nat.xor_comm x b, Nat.xor_comm x b',
    xor_xor_cancel]

/-- Two byte steps over the same byte from different registers differ by
the iterated bit step of the register difference. -/
theorem crcByte_diff_state (u v c : Nat) :
    crcByte u c ^^^ crcByte v c = crcBit^[8] (u ^^^ v) := by
  rw [crcByte, crcByte, ← crcBit_iter_xor, xor_xor_cancel]

/-- The CRC register fold keeps distinct registers distinct. -/
theorem foldl_crcByte_ne (s : List Nat) :
    (∀ c ∈ s, c < 256) → ∀ u v : Nat, u < 2 ^ 32 → v < 2 ^ 32 → u ≠ v →
      s.foldl crcByte u ≠ s.foldl crcByte v := by
  induction s with
  | nil =>
    intro _ u v _ _ h
    exact h
  | cons c s ih =>
    intro hb u v hu hv hne
    simp only [List.foldl_cons]
    have hc : c < 256 := hb c (by simp)
    refine ih (fun x hx => hb x (by simp [hx])) _ _
      (crcByte_lt hu hc) (crcByte_lt hv hc) ?_
    intro he
    have h0 : crcByte u c ^^^ crcByte v c = 0 := by rw [he, Nat.xor_self]
    rw [crcByte_diff_state] at h0
    exact crcBit_iter_ne_zero 8 (fun hh => hne (Nat.xor_eq_zero.1 hh))
      (Nat.xor_lt_two_pow hu hv) h0

/-- CRC-32 distinguishes byte strings that differ in exactly one byte. -/
theorem crc32_flip_ne (p s : List Nat) (b b' : Nat)
    (hp : ∀ c ∈ p, c < 256) (hs : ∀ c ∈ s, c < 256)
    (hb : b < 256) (hb' : b' < 256) (hne : b ≠ b') :
    crc32 (p ++ b :: s) ≠ crc32 (p ++ b' :: s) := by
  rw [crc32, crc32]
  intro h
  have h2 : (p ++ b :: s).foldl crcByte 0xFFFFFFFF =
      (p ++ b' :: s).foldl crcByte 0xFFFFFFFF := by
    have h3 := congrArg (fun z => z ^^^ 0xFFFFFFFF) h
    simpa [Nat.xor_assoc] using h3
  rw [List.foldl_append, List.foldl_append, List.foldl_cons,
    List.foldl_cons] at h2
  have hxlt : p.foldl crcByte 0xFFFFFFFF < 2 ^ 32 :=
    foldl_crcByte_lt (by norm_num) hp
  have hcb : crcByte (p.foldl crcByte 0xFFFFFFFF) b ≠
      crcByte (p.foldl crcByte 0xFFFFFFFF) b' := by
    intro he
    have h0 : crcByte (p.foldl crcByte 0xFFFFFFFF) b ^^^
        crcByte (p.foldl crcByte 0xFFFFFFFF) b' = 0 := by
      rw [he, Nat.xor_self]
    rw [crcByte_diff] at h0
    exact crcBit_iter_ne_zero 8 (fun hh => hne (Nat.xor_eq_zero.1 hh))
      (Nat.xor_lt_two_pow (by omega) (by omega)) h0
  exact foldl_crcByte_ne s hs _ _
    (crcByte_lt hxlt hb) (crcByte_lt hxlt hb') hcb h2

/-- CRC-32 changes whenever one byte of the input is replaced by a
different byte value. -/
theorem crc32_set_ne (l : List Nat) (m v : Nat) (hm : m < l.length)
    (hb : ∀ c ∈ l, c < 256) (hv : v < 256) (hne : v ≠ l.getD m 0) :
    crc32 (l.set m v) ≠ crc32 l := by
  have hsplit : l = l.take m ++ l.getD m 0 :: l.drop (m + 1) := by
    conv_lhs => rw [← List.take_append_drop m l]
    rw [List.drop_eq_getElem_cons hm, List.getD_eq_getElem l 0 hm]
  have hset : l.set m v = l.take m ++ v :: l.drop (m + 1) := by
    rw [List.set_eq_take_append_cons_drop, if_pos hm]
  have hkey := crc32_flip_ne (l.take m) (l.drop (m + 1)) v (l.getD m 0)
    (fun c hc => hb c (List.mem_of_mem_take hc))
    (fun c hc => hb c (List.mem_of_mem_drop hc)) hv
    (by
      rw [List.getD_eq_getElem l 0 hm]
      exact hb _ (List.getElem_mem hm)) hne
  intro h
  apply hkey
  rw [← hset, ← hsplit]
  exact h

theorem readLE_append (k : Nat) :
    ∀ (l1 l2 : List Nat), k ≤ l1.length →
      readLE k (l1 ++ l2) = readLE k l1 := by
  induction k with
  | zero =>
    intro l1 l2 _
    rfl
  | succ k ih =>
    intro l1 l2 hlen
    cases l1 with
    | nil => simp at hlen
    | cons b rest =>
      rw [List.cons_append,
        show readLE (k + 1) (b :: (rest ++ l2)) =
          b + 256 * readLE k (rest ++ l2) from rfl,
        show readLE (k + 1) (b :: rest) = b + 256 * readLE k rest from rfl,
        ih rest l2 (by simpa using hlen)]

/-- Little-endian read/write round-trip on the byte level: re-serializing
the value read from a byte string reproduces its first `k` bytes. -/
theorem leBytes_readLE (k : Nat) :
    ∀ (l : List Nat), k ≤ l.length → (∀ c ∈ l.take k, c < 256) →
      leBytes k (readLE k l) = l.take k := by
  induction k with
  | zero =>
    intro l _ _
    rfl
  | succ k ih =>
    intro l hlen hb
    cases l with
    | nil => simp at hlen
    | cons b rest =>
      have hblt : b < 256 := hb b (by simp)
      rw [show readLE (k + 1) (b :: rest) = b + 256 * readLE k rest from rfl,
        leBytes]
      have hmod : (b + 256 * readLE k rest) % 256 = b := by omega
      have hdiv : (b + 256 * readLE k rest) / 256 = readLE k rest := by omega
      rw [hmod, hdiv,
        ih rest (by simpa using hlen)
          (fun c hc => hb c (by simp [List.take_succ_cons, hc])),
        List.take_succ_cons]

/-- Replacing one of the first `k` bytes by a different byte value changes
the `k`-byte little-endian read. -/
theorem readLE_set_ne (k : Nat) (l : List Nat) (n v : Nat)
    (hk : k ≤ l.length) (hn : n < k) (hb : ∀ c ∈ l, c < 256) (hv : v < 256)
    (hne : v ≠ l.getD n 0) :
    readLE k (l.set n v) ≠ readLE k l := by
  intro he
  have hbs : ∀ c ∈ (l.set n v).take k, c < 256 := by
    intro c hc
    rcases List.mem_or_eq_of_mem_set (List.mem_of_mem_take hc) with h | h
    · exact hb c h
    · rw [h]
      exact hv
  have t1 : leBytes k (readLE k (l.set n v)) = (l.set n v).take k :=
    leBytes_readLE k _ (by rw [List.length_set]; exact hk) hbs
  have t2 : leBytes k (readLE k l) = l.take k :=
    leBytes_readLE k l hk (fun c hc => hb c (List.mem_of_mem_take hc))
  rw [he, t2] at t1
  have hnl : n < l.length := lt_of_lt_of_le hn hk
  have h1 : ((l.set n v).take k)[n]? = some v := by
    rw [List.getElem?_take, if_pos hn, List.getElem?_set_self hnl]
  have h2 : (l.take k)[n]? = some (l.getD n 0) := by
    rw [List.getElem?_take, if_pos hn, List.getElem?_eq_getElem hnl,
      List.getD_eq_getElem l 0 hnl]
  rw [t1, h1] at h2
  exact hne (Option.some.inj h2)

theorem getD_append_left {l1 l2 : List Nat} {n : Nat} (h : n < l1.length) :
    (l1 ++ l2).getD n 0 = l1.getD n 0 := by
  rw [List.getD_eq_getElem?_getD, List.getD_eq_getElem?_getD,
    List.getElem?_append, if_pos h]

theorem getD_append_right {l1 l2 : List Nat} {n : Nat} (h : l1.length ≤ n) :
    (l1 ++ l2).getD n 0 = l2.getD (n - l1.length) 0 := by
  rw [List.getD_eq_getElem?_getD, List.getD_eq_getElem?_getD,
    List.getElem?_append_right h]

theorem take_set_of_le (l : List Nat) (n v k : Nat) (h : k ≤ n) :
    (l.set n v).take k = l.take k := by
  apply List.ext_getElem?
  intro j
  rw [List.getElem?_take, List.getElem?_take]
  by_cases hj : j < k
  · rw [if_pos hj, if_pos hj, List.getElem?_set_ne (by omega)]
  · rw [if_neg hj, if_neg hj]

theorem take_two_getD (l : List Nat) (h : 2 ≤ l.length) :
    l.take 2 = [l.getD 0 0, l.getD 1 0] := by
  rcases l with _ | ⟨a, _ | ⟨b, rest⟩⟩
  · simp at h
  · simp at h
  · rfl

/-- The header re-serialized from the fields `decodeHeader` parses equals
the first 20 bytes of the input: `DecodeRecord`'s header-CRC recomputation
is a CRC over `data[0:20]`. -/
theorem decodeHeader_headerBytes (data : List Nat) (h20 : 20 ≤ data.length)
    (hb : ∀ c ∈ data, c < 256) :
    (decodeHeader data).headerBytes = data.take 20 := by
  have hmem : ∀ (m k : Nat), ∀ c ∈ (data.drop m).take k, c < 256 :=
    fun m k c hc => hb c (List.mem_of_mem_drop (List.mem_of_mem_take hc))
  have hmem0 : ∀ (k : Nat), ∀ c ∈ data.take k, c < 256 :=
    fun k c hc => hb c (List.mem_of_mem_take hc)
  have hgd : ∀ j, (data.drop 4).getD j 0 = byteAt data (4 + j) := by
    intro j
    rw [byteAt, List.getD_eq_getElem?_getD, List.getD_eq_getElem?_getD,
      List.getElem?_drop]
  have hlt4 : byteAt data 4 < 256 := by
    rw [byteAt, List.getD_eq_getElem data 0 (by omega)]
    exact hb _ (List.getElem_mem (by omega))
  have hlt5 : byteAt data 5 < 256 := by
    rw [byteAt, List.getD_eq_getElem data 0 (by omega)]
    exact hb _ (List.getElem_mem (by omega))
  have e1 : leBytes 4 (readLE 4 data) = data.take 4 :=
    leBytes_readLE 4 data (by omega) (hmem0 4)
  have e2 : (data.drop 4).take 2 = [byteAt data 4, byteAt data 5] := by
    rw [take_two_getD _ (by simp; omega), hgd 0, hgd 1]
  have e3 : leBytes 2 (readLE 2 (data.drop 6)) = (data.drop 6).take 2 :=
    leBytes_readLE 2 _ (by simp; omega) (hmem 6 2)
  have e4 : leBytes 8 (readLE 8 (data.drop 8)) = (data.drop 8).take 8 :=
    leBytes_readLE 8 _ (by simp; omega) (hmem 8 8)
  have e5 : leBytes 4 (readLE 4 (data.drop 16)) = (data.drop 16).take 4 :=
    leBytes_readLE 4 _ (by simp; omega) (hmem 16 4)
  show leBytes 4 (readLE 4 data) ++ [byteAt data 4 % 256, byteAt data 5 % 256]
      ++ leBytes 2 (readLE 2 (data.drop 6))
      ++ leBytes 8 (readLE 8 (data.drop 8))
      ++ leBytes 4 (readLE 4 (data.drop 16)) = data.take 20
  rw [Nat.mod_eq_of_lt hlt4, Nat.mod_eq_of_lt hlt5, e1, e3, e4, e5, ← e2]
  simp only [List.append_assoc]
  have hd6 : (data.drop 4).drop 2 = data.drop 6 := by
    rw [List.drop_drop]
  have hd8 : (data.drop 6).drop 2 = data.drop 8 := by
    rw [List.drop_drop]
  have hd16 : (data.drop 8).drop 8 = data.drop 16 := by
    rw [List.drop_drop]
  rw [← hd16, ← List.take_add, ← hd8, ← List.take_add, ← hd6,
    ← List.take_add, ← List.take_add]

/-- `DecodeRecord` on a header whose magic field is damaged. -/
theorem decodeRecord_bad_magic (data : List Nat) (h24 : 24 ≤ data.length)
    (hm : readLE 4 data ≠ MagicBytes) :
    DecodeRecord data = .error .badMagic := by
  rw [DecodeRecord]
  simp only [HeaderSize]
  rw [if_neg (by omega)]
  rw [if_pos (show (decodeHeader data).magic ≠ MagicBytes from hm)]

/-- `DecodeRecord` on an input whose stored header CRC does not match the
CRC-32 of its first 20 bytes. -/
theorem decodeRecord_header_mismatch (data : List Nat)
    (h24 : 24 ≤ data.length) (hb : ∀ c ∈ data, c < 256)
    (hm : readLE 4 data = MagicBytes)
    (hcrc : readLE 4 (data.drop 20) ≠ crc32 (data.take 20)) :
    DecodeRecord data = .error .headerCrcMismatch := by
  rw [DecodeRecord]
  simp only [HeaderSize]
  rw [if_neg (by omega)]
  have hmagic : (decodeHeader data).magic = readLE 4 data := rfl
  have hhc : (decodeHeader data).headerCRC = readLE 4 (data.drop 20) := rfl
  have hcalc : (decodeHeader data).calculateHeaderCRC = crc32 (data.take 20) := by
    rw [Record.calculateHeaderCRC, decodeHeader_headerBytes data (by omega) hb]
  rw [if_neg (by rw [hmagic, hm]; simp), if_pos (by rw [hhc, hcalc]; exact hcrc)]

/-- `DecodeRecord` on an input whose header is intact but whose stored
payload CRC does not match the CRC-32 of the payload bytes. -/
theorem decodeRecord_payload_mismatch (data : List Nat)
    (h24 : 24 ≤ data.length) (hb : ∀ c ∈ data, c < 256)
    (hm : readLE 4 data = MagicBytes)
    (hcrc : readLE 4 (data.drop 20) = crc32 (data.take 20))
    (hlen : ¬ data.length < 24 + readLE 4 (data.drop 16) + 4)
    (hpc : readLE 4 (data.drop (24 + readLE 4 (data.drop 16))) ≠
      crc32 ((data.drop 24).take (readLE 4 (data.drop 16)))) :
    DecodeRecord data = .error .payloadCrcMismatch := by
  rw [DecodeRecord]
  simp only [HeaderSize]
  rw [if_neg (by omega)]
  have hmagic : (decodeHeader data).magic = readLE 4 data := rfl
  have hhc : (decodeHeader data).headerCRC = readLE 4 (data.drop 20) := rfl
  have hpl : (decodeHeader data).payloadLen = readLE 4 (data.drop 16) := rfl
  have hcalc : (decodeHeader data).calculateHeaderCRC = crc32 (data.take 20) := by
    rw [Record.calculateHeaderCRC, decodeHeader_headerBytes data (by omega) hb]
  rw [if_neg (by rw [hmagic, hm]; simp),
    if_neg (by rw [hhc, hcalc, hcrc]; simp),
    if_neg (by rw [hpl]; exact hlen)]
  rw [if_pos (by rw [hpl]; exact hpc)]

theorem readLE_take (k : Nat) : ∀ l : List Nat,
    readLE k (l.take k) = readLE k l := by
  induction k with
  | zero =>
    intro l
    rfl
  | succ k ih =>
    intro l
    cases l with
    | nil => rfl
    | cons b rest =>
      rw [List.take_succ_cons,
        show readLE (k + 1) (b :: rest.take k) =
          b + 256 * readLE k (rest.take k) from rfl,
        show readLE (k + 1) (b :: rest) = b + 256 * readLE k rest from rfl,
        ih rest]

theorem readLE_leBytes_self' {k v : Nat} (h : v < 256 ^ k) :
    readLE k (leBytes k v) = v := by
  have h2 := readLE_leBytes_self h ([] : List Nat)
  simpa using h2

theorem headerBytes_drop_16 (r : Record) :
    r.headerBytes.drop 16 = leBytes 4 r.payloadLen := by
  have h1 : r.headerBytes = leBytes 4 r.magic ++ (r.type % 256 ::
      (r.flags % 256 :: (leBytes 2 r.reserved ++ (leBytes 8 r.lsn ++
      leBytes 4 r.payloadLen)))) := by
    simp [Record.headerBytes, List.append_assoc]
  have s4 : r.headerBytes.drop 4 = r.type % 256 :: (r.flags % 256 ::
      (leBytes 2 r.reserved ++ (leBytes 8 r.lsn ++
      leBytes 4 r.payloadLen))) := by
    rw [h1, List.drop_left' (leBytes_length 4 r.magic)]
  have s6 : r.headerBytes.drop 6 = leBytes 2 r.reserved ++
      (leBytes 8 r.lsn ++ leBytes 4 r.payloadLen) := by
    rw [show (6 : Nat) = 4 + 2 from rfl, ← List.drop_drop, s4]
    rfl
  have s8 : r.headerBytes.drop 8 = leBytes 8 r.lsn ++
      leBytes 4 r.payloadLen := by
    rw [show (8 : Nat) = 6 + 2 from rfl, ← List.drop_drop, s6,
      List.drop_left' (leBytes_length 2 r.reserved)]
  rw [show (16 : Nat) = 8 + 8 from rfl, ← List.drop_drop, s8,
    List.drop_left' (leBytes_length 8 r.lsn)]

/-- All bytes of a well-formed record's encoding are byte values. -/
theorem encode_forall_lt (r : Record) (hwf : wfRecord r) :
    ∀ c ∈ r.Encode, c < 256 := by
  obtain ⟨hm, hty, hfl, hres, hlsn, hpl, hple, hhc, hpc, hb⟩ := hwf
  rw [Record.Encode]
  intro c hc
  rcases List.mem_append.1 hc with h | h
  · rcases List.mem_append.1 h with h2 | h2
    · rcases List.mem_append.1 h2 with h3 | h3
      · exact headerBytes_forall_lt r c h3
      · exact leBytes_mem_lt h3
    · exact hb c h2
  · exact leBytes_mem_lt h

/-- C8 (amended): for every well-formed encoded record, flipping exactly
one bit of any byte of its encoding makes `DecodeRecord` fail with
`BadMagic` (flip within the 4 magic bytes), `HeaderCrcMismatch` (flip
within header bytes 4..23) or `PayloadCrcMismatch` (flip within the payload
or the stored payload CRC). -/
theorem C8_crc_sensitivity (r : Record) (hwf : wfRecord r) (n i : Nat)
    (hn : n < r.Encode.length) (hi : i < 8) :
    ∃ e, DecodeRecord (r.Encode.set n (r.Encode.getD n 0 ^^^ 2 ^ i)) =
        .error e ∧
      (e = WalError.badMagic ∨ e = WalError.headerCrcMismatch ∨
        e = WalError.payloadCrcMismatch) := by
  obtain ⟨hm, hty, hfl, hres, hlsn, hpl, hple, hhc, hpc, hb⟩ := hwf
  have hbytes : ∀ c ∈ r.Encode, c < 256 :=
    encode_forall_lt r ⟨hm, hty, hfl, hres, hlsn, hpl, hple, hhc, hpc, hb⟩
  set v := r.Encode.getD n 0 ^^^ 2 ^ i with hvdef
  have hb0lt : r.Encode.getD n 0 < 256 := by
    rw [List.getD_eq_getElem _ _ hn]
    exact hbytes _ (List.getElem_mem hn)
  have hvlt : v < 256 := by
    have h2i : (2 : Nat) ^ i < 256 := by
      calc (2 : Nat) ^ i ≤ 2 ^ 7 := Nat.pow_le_pow_right (by norm_num) (by omega)
      _ < 256 := by norm_num
    have h8 : (256 : Nat) = 2 ^ 8 := by norm_num
    rw [hvdef]
    rw [h8] at hb0lt h2i ⊢
    exact Nat.xor_lt_two_pow hb0lt h2i
  have hvne : v ≠ r.Encode.getD n 0 := by
    rw [hvdef]
    exact two_pow_xor_ne _ i
  have hbytes' : ∀ c ∈ r.Encode.set n v, c < 256 := by
    intro c hc
    rcases List.mem_or_eq_of_mem_set hc with h | h
    · exact hbytes c h
    · rw [h]
      exact hvlt
  have hlenE := encode_length r
  have hAlen : r.headerBytes.length = 20 := headerBytes_length r
  have hBlen : (leBytes 4 r.headerCRC).length = 4 := leBytes_length 4 _
  have hDlen : (leBytes 4 r.payloadCRC).length = 4 := leBytes_length 4 _
  have hE : r.Encode = r.headerBytes ++ (leBytes 4 r.headerCRC ++
      (r.payload ++ leBytes 4 r.payloadCRC)) := by
    simp [Record.Encode, List.append_assoc]
  have hE2 : r.Encode = ((r.headerBytes ++ leBytes 4 r.headerCRC) ++
      r.payload) ++ leBytes 4 r.payloadCRC := by
    rw [Record.Encode]
  have hABlen : (r.headerBytes ++ leBytes 4 r.headerCRC).length = 24 := by
    rw [List.length_append, hAlen, hBlen]
  have hXlen : ((r.headerBytes ++ leBytes 4 r.headerCRC) ++
      r.payload).length = 24 + r.payload.length := by
    rw [List.length_append, hABlen]
  have hhc32 : r.headerCRC < 2 ^ 32 := by
    rw [hhc]
    exact calculateHeaderCRC_lt r
  have hpc32 : r.payloadCRC < 2 ^ 32 := by
    rw [hpc]
    exact crc32_lt hb
  have hcrcA : r.headerCRC = crc32 r.headerBytes := by
    rw [hhc, Record.calculateHeaderCRC]
  have hA1 : r.headerBytes = leBytes 4 r.magic ++ (r.type % 256 ::
      (r.flags % 256 :: (leBytes 2 r.reserved ++ (leBytes 8 r.lsn ++
      leBytes 4 r.payloadLen)))) := by
    simp [Record.headerBytes, List.append_assoc]
  have hrm : readLE 4 r.Encode = MagicBytes := by
    rw [hE, readLE_append 4 _ _ (by omega), hA1,
      readLE_leBytes_self (by rw [hm, MagicBytes]; norm_num), hm]
  have hplLt : r.payloadLen < 256 ^ 4 := by
    have h4 : (256 : Nat) ^ 4 = 4294967296 := by norm_num
    have hmax : MaxPayloadSize = 10485760 := by rw [MaxPayloadSize]
    rw [hmax] at hple
    rw [h4]
    omega
  by_cases hn4 : n < 4
  · refine ⟨.badMagic, ?_, Or.inl rfl⟩
    apply decodeRecord_bad_magic
    · rw [List.length_set]
      omega
    · intro hcon
      exact readLE_set_ne 4 r.Encode n v (by omega) hn4 hbytes hvlt hvne
        (hcon.trans hrm.symm)
  · have hm' : readLE 4 (r.Encode.set n v) = MagicBytes := by
      rw [← readLE_take 4, take_set_of_le _ _ _ _ (by omega), readLE_take, hrm]
    by_cases hn20 : n < 20
    · have hsplit : r.Encode.set n v = r.headerBytes.set n v ++
          (leBytes 4 r.headerCRC ++ (r.payload ++ leBytes 4 r.payloadCRC)) := by
        rw [hE, List.set_append, if_pos (by rw [hAlen]; omega)]
      have htake20 : (r.Encode.set n v).take 20 = r.headerBytes.set n v := by
        rw [hsplit, List.take_left' (by rw [List.length_set]; exact hAlen)]
      have hdrop20 : (r.Encode.set n v).drop 20 = leBytes 4 r.headerCRC ++
          (r.payload ++ leBytes 4 r.payloadCRC) := by
        rw [hsplit, List.drop_left' (by rw [List.length_set]; exact hAlen)]
      have hgA : r.Encode.getD n 0 = r.headerBytes.getD n 0 := by
        rw [hE, getD_append_left (by rw [hAlen]; omega)]
      refine ⟨.headerCrcMismatch, ?_, Or.inr (Or.inl rfl)⟩
      apply decodeRecord_header_mismatch
      · rw [List.length_set]
        omega
      · exact hbytes'
      · exact hm'
      · rw [hdrop20, htake20,
          readLE_leBytes_self (lt_of_lt_of_le hhc32 (by norm_num))]
        intro hcon
        exact crc32_set_ne r.headerBytes n v (by rw [hAlen]; omega)
          (headerBytes_forall_lt r) hvlt (by rw [← hgA]; exact hvne)
          (hcon.symm.trans hcrcA)
    · by_cases hn24 : n < 24
      · have hsplit : r.Encode.set n v = r.headerBytes ++
            ((leBytes 4 r.headerCRC).set (n - 20) v ++
            (r.payload ++ leBytes 4 r.payloadCRC)) := by
          rw [hE, List.set_append, if_neg (by rw [hAlen]; omega),
            List.set_append, if_pos (by rw [hAlen, hBlen]; omega), hAlen]
        have htake20 : (r.Encode.set n v).take 20 = r.headerBytes := by
          rw [hsplit, List.take_left' hAlen]
        have hdrop20 : (r.Encode.set n v).drop 20 =
            (leBytes 4 r.headerCRC).set (n - 20) v ++
            (r.payload ++ leBytes 4 r.payloadCRC) := by
          rw [hsplit, List.drop_left' hAlen]
        have hgB : r.Encode.getD n 0 =
            (leBytes 4 r.headerCRC).getD (n - 20) 0 := by
          rw [hE, getD_append_right (by rw [hAlen]; omega),
            getD_append_left (by rw [hAlen, hBlen]; omega), hAlen]
        refine ⟨.headerCrcMismatch, ?_, Or.inr (Or.inl rfl)⟩
        apply decodeRecord_header_mismatch
        · rw [List.length_set]
          omega
        · exact hbytes'
        · exact hm'
        · rw [hdrop20, htake20,
            readLE_append 4 _ _ (by rw [List.length_set, hBlen])]
          intro hcon
          have hB : readLE 4 (leBytes 4 r.headerCRC) = r.headerCRC :=
            readLE_leBytes_self' (lt_of_lt_of_le hhc32 (by norm_num))
          exact readLE_set_ne 4 (leBytes 4 r.headerCRC) (n - 20) v
            (by rw [hBlen]) (by omega) (fun c hc => leBytes_mem_lt hc) hvlt
            (by rw [← hgB]; exact hvne)
            (by rw [hB, hcon, hcrcA])
      · by_cases hnp : n < 24 + r.payload.length
        · have hsplit : r.Encode.set n v =
              (r.headerBytes ++ leBytes 4 r.headerCRC) ++
              r.payload.set (n - 24) v ++ leBytes 4 r.payloadCRC := by
            rw [hE2, List.set_append, if_pos (by rw [hXlen]; omega),
              List.set_append, if_neg (by rw [hABlen]; omega), hABlen]
          have hC'len : (r.payload.set (n - 24) v).length =
              r.payload.length := List.length_set _ _ _
          have hX'len : ((r.headerBytes ++ leBytes 4 r.headerCRC) ++
              r.payload.set (n - 24) v).length = 24 + r.payload.length := by
            rw [List.length_append, hABlen, hC'len]
          have htake20 : (r.Encode.set n v).take 20 = r.headerBytes := by
            rw [hsplit, List.take_append_of_le_length (by rw [hX'len]; omega),
              List.take_append_of_le_length (by rw [hABlen]; omega),
              List.take_left' hAlen]
          have hdrop20 : (r.Encode.set n v).drop 20 =
              (leBytes 4 r.headerCRC ++ r.payload.set (n - 24) v) ++
              leBytes 4 r.payloadCRC := by
            rw [hsplit, List.drop_append_of_le_length (by rw [hX'len]; omega),
              List.drop_append_of_le_length (by rw [hABlen]; omega),
              List.drop_left' hAlen]
          have hdrop16 : (r.Encode.set n v).drop 16 =
              ((leBytes 4 r.payloadLen ++ leBytes 4 r.headerCRC) ++
              r.payload.set (n - 24) v) ++ leBytes 4 r.payloadCRC := by
            rw [hsplit, List.drop_append_of_le_length (by rw [hX'len]; omega),
              List.drop_append_of_le_length (by rw [hABlen]; omega),
              List.drop_append_of_le_length (by rw [hAlen]; omega),
              headerBytes_drop_16]
          have hpl16 : readLE 4 ((r.Encode.set n v).drop 16) =
              r.payloadLen := by
            rw [hdrop16,
              readLE_append 4 _ _ (by
                rw [List.length_append, List.length_append, leBytes_length,
                  hBlen]
                omega),
              readLE_append 4 _ _ (by
                rw [List.length_append, leBytes_length, hBlen]
                omega),
              readLE_append 4 _ _ (by simp [leBytes_length]),
              readLE_leBytes_self' hplLt]
          have hcrc20 : readLE 4 ((r.Encode.set n v).drop 20) =
              crc32 ((r.Encode.set n v).take 20) := by
            rw [hdrop20, htake20,
              readLE_append 4 _ _ (by
                rw [List.length_append, hBlen]
                omega),
              readLE_append 4 _ _ (by simp [hBlen]),
              readLE_leBytes_self' (lt_of_lt_of_le hhc32 (by norm_num))]
            exact hcrcA
          have hdrop24 : (r.Encode.set n v).drop 24 =
              r.payload.set (n - 24) v ++ leBytes 4 r.payloadCRC := by
            rw [hsplit, List.drop_append_of_le_length (by rw [hX'len]; omega),
              List.drop_left' hABlen]
          have hdropPl : (r.Encode.set n v).drop (24 + r.payloadLen) =
              leBytes 4 r.payloadCRC := by
            rw [hsplit, List.drop_left' (by rw [hX'len, hpl])]
          have hgC : r.Encode.getD n 0 = r.payload.getD (n - 24) 0 := by
            rw [hE2, getD_append_left (by rw [hXlen]; omega),
              getD_append_right (by rw [hABlen]; omega), hABlen]
          refine ⟨.payloadCrcMismatch, ?_, Or.inr (Or.inr rfl)⟩
          apply decodeRecord_payload_mismatch
          · rw [List.length_set]
            omega
          · exact hbytes'
          · exact hm'
          · exact hcrc20
          · rw [hpl16, List.length_set, hlenE, hpl]
            omega
          · rw [hpl16, hdropPl, hdrop24,
              List.take_left' (by rw [List.length_set, hpl]),
              readLE_leBytes_self' (lt_of_lt_of_le hpc32 (by norm_num))]
            intro hcon
            exact crc32_set_ne r.payload (n - 24) v (by omega) hb hvlt
              (by rw [← hgC]; exact hvne)
              (hcon.symm.trans hpc)
        · have hsplit : r.Encode.set n v =
              ((r.headerBytes ++ leBytes 4 r.headerCRC) ++ r.payload) ++
              (leBytes 4 r.payloadCRC).set (n - (24 + r.payload.length)) v := by
            rw [hE2, List.set_append, if_neg (by rw [hXlen]; omega), hXlen]
          have htake20 : (r.Encode.set n v).take 20 = r.headerBytes := by
            rw [hsplit, List.take_append_of_le_length (by rw [hXlen]; omega),
              List.take_append_of_le_length (by rw [hABlen]; omega),
              List.take_left' hAlen]
          have hdrop20 : (r.Encode.set n v).drop 20 =
              (leBytes 4 r.headerCRC ++ r.payload) ++
              (leBytes 4 r.payloadCRC).set (n - (24 + r.payload.length)) v := by
            rw [hsplit, List.drop_append_of_le_length (by rw [hXlen]; omega),
              List.drop_append_of_le_length (by rw [hABlen]; omega),
              List.drop_left' hAlen]
          have hdrop16 : (r.Encode.set n v).drop 16 =
              ((leBytes 4 r.payloadLen ++ leBytes 4 r.headerCRC) ++
              r.payload) ++
              (leBytes 4 r.payloadCRC).set (n - (24 + r.payload.length)) v := by
            rw [hsplit, List.drop_append_of_le_length (by rw [hXlen]; omega),
              List.drop_append_of_le_length (by rw [hABlen]; omega),
              List.drop_append_of_le_length (by rw [hAlen]; omega),
              headerBytes_drop_16]
          have hpl16 : readLE 4 ((r.Encode.set n v).drop 16) =
              r.payloadLen := by
            rw [hdrop16,
              readLE_append 4 _ _ (by
                rw [List.length_append, List.length_append, leBytes_length,
                  hBlen]
                omega),
              readLE_append 4 _ _ (by
                rw [List.length_append, leBytes_length, hBlen]
                omega),
              readLE_append 4 _ _ (by simp [leBytes_length]),
              readLE_leBytes_self' hplLt]
          have hcrc20 : readLE 4 ((r.Encode.set n v).drop 20) =
              crc32 ((r.Encode.set n v).take 20) := by
            rw [hdrop20, htake20,
              readLE_append 4 _ _ (by
                rw [List.length_append, hBlen]
                omega),
              readLE_append 4 _ _ (by simp [hBlen]),
              readLE_leBytes_self' (lt_of_lt_of_le hhc32 (by norm_num))]
            exact hcrcA
          have hdrop24 : (r.Encode.set n v).drop 24 = r.payload ++
              (leBytes 4 r.payloadCRC).set (n - (24 + r.payload.length)) v := by
            rw [hsplit, List.drop_append_of_le_length (by rw [hXlen]; omega),
              List.drop_left' hABlen]
          have hdropPl : (r.Encode.set n v).drop (24 + r.payloadLen) =
              (leBytes 4 r.payloadCRC).set (n - (24 + r.payload.length)) v := by
            rw [hsplit, List.drop_left' (by rw [hXlen, hpl])]
          have hgD : r.Encode.getD n 0 =
              (leBytes 4 r.payloadCRC).getD (n - (24 + r.payload.length)) 0 := by
            rw [hE2, getD_append_right (by rw [hXlen]; omega), hXlen]
          refine ⟨.payloadCrcMismatch, ?_, Or.inr (Or.inr rfl)⟩
          apply decodeRecord_payload_mismatch
          · rw [List.length_set]
            omega
          · exact hbytes'
          · exact hm'
          · exact hcrc20
          · rw [hpl16, List.length_set, hlenE, hpl]
            omega
          · rw [hpl16, hdropPl, hdrop24, List.take_left' hpl.symm]
            intro hcon
            have hD : readLE 4 (leBytes 4 r.payloadCRC) = r.payloadCRC :=
              readLE_leBytes_self' (lt_of_lt_of_le hpc32 (by norm_num))
            exact readLE_set_ne 4 (leBytes 4 r.payloadCRC)
              (n - (24 + r.payload.length)) v (by rw [hDlen]) (by omega)
              (fun c hc => leBytes_mem_lt hc) hvlt
              (by rw [← hgD]; exact hvne)
              (by rw [hD, hcon, hpc])

set_option maxRecDepth 1000000 in
/-- C8 (counterexample to the claim as stated): flipping the lowest bit of
byte 0 of a well-formed encoding (a magic byte) makes `DecodeRecord` fail
with `BadMagic` — not with a header- or payload-CRC mismatch, because the
magic check precedes the CRC checks. -/
theorem C8_counterexample :
    DecodeRecord (c3rec.Encode.set 0 (c3rec.Encode.getD 0 0 ^^^ 2 ^ 0)) =
      .error .badMagic ∧
    DecodeRecord (c3rec.Encode.set 0 (c3rec.Encode.getD 0 0 ^^^ 2 ^ 0)) ≠
      .error .headerCrcMismatch ∧
    DecodeRecord (c3rec.Encode.set 0 (c3rec.Encode.getD 0 0 ^^^ 2 ^ 0)) ≠
      .error .payloadCrcMismatch := by
  refine ⟨by decide, by decide, by decide⟩

set_option maxRecDepth 1000000 in
/-- Witness for C8 at a concrete record: flipping bit 3 of byte 5 (the
flags byte, CRC-covered) of `c3rec`'s encoding yields a decode error of one
of the three kinds (here a header CRC mismatch). -/
theorem C8_crc_sensitivity_witness :
    ∃ e, DecodeRecord (c3rec.Encode.set 5 (c3rec.Encode.getD 5 0 ^^^ 2 ^ 3)) =
        .error e ∧
      (e = WalError.badMagic ∨ e = WalError.headerCrcMismatch ∨
        e = WalError.payloadCrcMismatch) :=
  C8_crc_sensitivity c3rec (by decide) 5 3 (by decide) (by decide)

/-! ## C10 — recovery is read-only on segment files -/

/-- One segment step of `RecoverWithoutManifest` leaves the file system
unchanged. -/
theorem rwmStep_fst (acc : FS × RecState × RecoveryStats) (seg : SegName) :
    (rwmStep acc seg).1 = acc.1 := by
  rw [rwmStep]
  rcases h : fsRead acc.1 seg with _ | bytes <;> simp

theorem foldl_rwmStep_fst (l : List SegName)
    (acc : FS × RecState × RecoveryStats) :
    (l.foldl rwmStep acc).1 = acc.1 := by
  induction l generalizing acc with
  | nil => rfl
  | cons seg rest ih => rw [List.foldl_cons, ih, rwmStep_fst]

/-- C10: neither recovery entry point changes the contents of any segment
file: the file-system component threaded through `RecoverWithoutManifest`
and `Recover` is returned exactly as it was given — recovery's only
mutations are to the in-memory index and the returned statistics, and the
corruption path of `replayActiveWAL` merely stops replay. -/
theorem C10_recovery_readonly (fs : FS) (info : RecoveryInfo) :
    (RecoverWithoutManifest fs).1 = fs ∧ (Recover fs info).1 = fs := by
  constructor
  · rw [RecoverWithoutManifest, foldl_rwmStep_fst]
  · rfl

end Selfstack

